import Mathlib

/-!
Verification of the BX toolchain core: the tagged-JSON AST codec
(Labs1/bxc.py), the maximal-munch AST-to-TAC lowering (Labs2/bxc-skeleton.py),
the TAC interchange codec, and the TAC-to-assembly backend (Labs1/tac2arm.py).
Each Python function is embedded shallowly as an executable Lean definition;
Python exceptions are modelled with an explicit error type.
-/

/-! ## Labs2/bxc-skeleton.py: AST, maximal munch (namespace BX2) -/

namespace BX2

/-- Dataclass `Name` (bxc-skeleton.py line 24). -/
structure Name where
  value : String
deriving DecidableEq

/-- The `Expression` class hierarchy (bxc-skeleton.py lines 30-50). -/
inductive Expression where
  | VarExpression (name : Name)
  | IntExpression (value : Int)
  | OpAppExpression (operator : String) (arguments : List Expression)

/-- The `Statement` class hierarchy (bxc-skeleton.py lines 54-75).
The Python dataclass `VarDeclStatement` carries a second positional field
`init`; the lowering match `case VarDeclStatement(name)` never inspects it,
so we model it as an optional field that every definition below ignores. -/
inductive Statement where
  | VarDeclStatement (name : Name) (init : Option Expression)
  | AssignStatement (lhs : Name) (rhs : Expression)
  | PrintStatement (value : Expression)

/-- Python `Program = list[Statement]` (line 79). -/
abbrev Program := List Statement

/-- The `OPCODES` operator-to-mnemonic table (lines 259-272), in source order. -/
def OPCODES : List (String × String) :=
  [ ("opposite", "neg"),
    ("addition", "add"),
    ("subtraction", "sub"),
    ("multiplication", "mul"),
    ("division", "div"),
    ("modulus", "mod"),
    ("bitwise-negation", "not"),
    ("bitwise-and", "and"),
    ("bitwise-or", "or"),
    ("bitwise-xor", "xor"),
    ("logical-shift-left", "shl"),
    ("logical-shift-right", "shr") ]

/-- Python `Parser.UNIOP` (lines 163-166). -/
def UNIOP : List (String × String) :=
  [ ("-", "opposite"),
    ("~", "bitwise-negation") ]

/-- Python `Parser.BINOP` (lines 168-179). -/
def BINOP : List (String × String) :=
  [ ("+", "addition"),
    ("-", "subtraction"),
    ("*", "multiplication"),
    ("/", "division"),
    ("%", "modulus"),
    (">>", "logical-right-shift"),
    ("<<", "logical-left-shift"),
    ("&", "bitwise-and"),
    ("|", "bitwise-or"),
    ("^", "bitwise-xor") ]

/-- Dataclass `TAC` (lines 276-280): opcode, argument list, optional result. -/
structure TAC where
  opcode : String
  arguments : List String
  result : Option String
deriving DecidableEq

/-- The mutable state of an `MM` instance (lines 296-299): the temporary
counter, the accumulated instruction list, and the name-to-temporary map.
Python initialises `_counter = -1` and `fresh_temporary` pre-increments;
we equivalently store the count of temporaries minted so far, starting at 0.
The dict `_vars` is modelled as an association list where insertion conses
in front, so lookup finds the most recent binding, as dict assignment does. -/
structure MMState where
  counter : Nat
  tac : List TAC
  vars : List (String × String)

/-- The temporary name `f'%{n}'` minted for counter value `n` (line 311). -/
def tmp (n : Nat) : String := "%" ++ toString n

/-- Python `MM.fresh_temporary` (lines 309-311). -/
def fresh_temporary (s : MMState) : String × MMState :=
  (tmp s.counter, { s with counter := s.counter + 1 })

/-- Python `MM.push` (lines 313-319): append one instruction. -/
def push (s : MMState) (i : TAC) : MMState :=
  { s with tac := s.tac ++ [i] }

mutual
/-- Python `MM.for_expression` (lines 339-355).  A lookup failure for an unbound
variable or an operator missing from `OPCODES` is a Python `KeyError`
crashing the whole lowering; both are modelled as `none`.  As in the source,
the fresh result temporary of an operator application is minted before its
arguments are lowered, and `OPCODES` is only consulted afterwards. -/
def for_expression (s : MMState) : Expression → Option (MMState × String)
  | .VarExpression name =>
      match s.vars.lookup name.value with
      | some t => some (s, t)
      | none => none
  | .IntExpression value =>
      let (t, s1) := fresh_temporary s
      some (push s1 ⟨"const", [toString value], some t⟩, t)
  | .OpAppExpression operator arguments =>
      let (t, s1) := fresh_temporary s
      match for_expression_list s1 arguments with
      | none => none
      | some (s2, ts) =>
          match OPCODES.lookup operator with
          | some op => some (push s2 ⟨op, ts, some t⟩, t)
          | none => none

/-- The list comprehension `[self.for_expression(e) for e in arguments]`
(line 352), threading the state left to right. -/
def for_expression_list (s : MMState) : List Expression → Option (MMState × List String)
  | [] => some (s, [])
  | e :: es =>
      match for_expression s e with
      | none => none
      | some (s1, t) =>
          match for_expression_list s1 es with
          | none => none
          | some (s2, ts) => some (s2, t :: ts)
end

/-- Python `MM.for_statement` (lines 325-337).  Note the declaration case pushes
`self.push('const', '0', self._vars[name.value])`: both `'0'` and the
temporary are positional and land in `*arguments`, and `result` keeps its
default `None`.  An assignment to an undeclared name is a `KeyError`
(modelled as `none`). -/
def for_statement (s : MMState) : Statement → Option MMState
  | .VarDeclStatement name _init =>
      let (t, s1) := fresh_temporary s
      let s2 := { s1 with vars := (name.value, t) :: s1.vars }
      some (push s2 ⟨"const", ["0", t], none⟩)
  | .AssignStatement lhs rhs =>
      match for_expression s rhs with
      | none => none
      | some (s1, t) =>
          match s1.vars.lookup lhs.value with
          | some d => some (push s1 ⟨"copy", [t], some d⟩)
          | none => none
  | .PrintStatement value =>
      match for_expression s value with
      | none => none
      | some (s1, t) => some (push s1 ⟨"print", [t], none⟩)

/-- Python `MM.for_program` (lines 321-323). -/
def for_program (s : MMState) : Program → Option MMState
  | [] => some s
  | st :: rest =>
      match for_statement s st with
      | none => none
      | some s1 => for_program s1 rest

/-- Python `MM.mm` (lines 303-307): run a fresh instance and return its TAC list. -/
def mm (prgm : Program) : Option (List TAC) :=
  (for_program ⟨0, [], []⟩ prgm).map (fun s => s.tac)

end BX2

/-! ## Facts about decimal rendering of numbers

The lowering mints temporary names `f'%{counter}'`; freshness arguments need
that distinct counters yield distinct names and that rendered integer
literals never look like temporaries. -/

namespace ReprFacts

/-- Numeric value of a decimal digit character. -/
def digitVal (c : Char) : Nat := c.toNat - 48

theorem digitVal_digitChar : ∀ m, m < 10 → digitVal (Nat.digitChar m) = m := by decide

theorem digitChar_ge16 (n : Nat) (h : 16 ≤ n) : Nat.digitChar n = '*' := by
  unfold Nat.digitChar
  repeat rw [if_neg (by omega)]

theorem digitChar_ne_pct (n : Nat) : Nat.digitChar n ≠ '%' := by
  rcases Nat.lt_or_ge n 16 with h | h
  · interval_cases n <;> decide
  · rw [digitChar_ge16 n h]; decide

theorem toDigitsCore_append (b : Nat) :
    ∀ (f n : Nat) (acc : List Char),
      Nat.toDigitsCore b f n acc = Nat.toDigitsCore b f n [] ++ acc := by
  intro f
  induction f with
  | zero => intro n acc; simp [Nat.toDigitsCore]
  | succ f ih =>
      intro n acc
      simp only [Nat.toDigitsCore]
      split
      · simp
      · rw [ih (n / b) (Nat.digitChar (n % b) :: acc), ih (n / b) [Nat.digitChar (n % b)]]
        simp

theorem toDigitsCore_chars (b : Nat) :
    ∀ (f n : Nat) (acc : List Char) (c : Char),
      c ∈ Nat.toDigitsCore b f n acc → c ∈ acc ∨ ∃ m, c = Nat.digitChar m := by
  intro f
  induction f with
  | zero => intro n acc c hc; exact Or.inl hc
  | succ f ih =>
      intro n acc c hc
      simp only [Nat.toDigitsCore] at hc
      split at hc
      · rcases List.mem_cons.mp hc with h | h
        · exact Or.inr ⟨n % b, h⟩
        · exact Or.inl h
      · rcases ih (n / b) (Nat.digitChar (n % b) :: acc) c hc with h | h
        · rcases List.mem_cons.mp h with h1 | h1
          · exact Or.inr ⟨n % b, h1⟩
          · exact Or.inl h1
        · exact Or.inr h

/-- Decimal value of a digit-character list, most significant first. -/
def strNum (l : List Char) : Nat := l.foldl (fun a c => 10 * a + digitVal c) 0

theorem strNum_append_singleton (l : List Char) (c : Char) :
    strNum (l ++ [c]) = 10 * strNum l + digitVal c := by
  simp [strNum, List.foldl_append]

theorem strNum_toDigitsCore :
    ∀ (n f : Nat), n < f → strNum (Nat.toDigitsCore 10 f n []) = n := by
  intro n
  induction n using Nat.strong_induction_on with
  | _ n ih =>
      intro f hf
      match f, hf with
      | f + 1, hf =>
          simp only [Nat.toDigitsCore]
          split
          · rename_i hdiv
            have hn : n < 10 := by omega
            have h1 : strNum [Nat.digitChar (n % 10)] = digitVal (Nat.digitChar (n % 10)) := by
              simp [strNum]
            rw [h1, digitVal_digitChar (n % 10) (Nat.mod_lt n (by omega)),
                Nat.mod_eq_of_lt hn]
          · rename_i hdiv
            have hge : 10 ≤ n := by
              by_contra hlt
              exact hdiv (Nat.div_eq_of_lt (by omega))
            have hlt1 : n / 10 < n := Nat.div_lt_self (by omega) (by omega)
            have hlt2 : n / 10 < f := by omega
            rw [toDigitsCore_append 10 f (n / 10) [Nat.digitChar (n % 10)],
                strNum_append_singleton, ih (n / 10) hlt1 f hlt2,
                digitVal_digitChar (n % 10) (Nat.mod_lt n (by omega))]
            omega

theorem natRepr_data (n : Nat) : (Nat.repr n).data = Nat.toDigits 10 n := rfl

theorem natRepr_inj {m n : Nat} (h : (Nat.repr m).data = (Nat.repr n).data) : m = n := by
  have hm := strNum_toDigitsCore m (m + 1) (Nat.lt_succ_self m)
  have hn := strNum_toDigitsCore n (n + 1) (Nat.lt_succ_self n)
  rw [natRepr_data, natRepr_data] at h
  unfold Nat.toDigits at h
  rw [h] at hm
  omega

theorem pct_not_mem_natRepr (n : Nat) : '%' ∉ (Nat.repr n).data := by
  intro hmem
  rw [natRepr_data] at hmem
  rcases toDigitsCore_chars 10 (n + 1) n [] '%' hmem with h | ⟨m, hm⟩
  · simp at h
  · exact digitChar_ne_pct m hm.symm

theorem intToString_eq_repr (v : Int) : toString v = Int.repr v := by
  cases v <;> rfl

theorem pct_not_mem_intToString (v : Int) : '%' ∉ (toString v).data := by
  rw [intToString_eq_repr]
  cases v with
  | ofNat m => exact pct_not_mem_natRepr m
  | negSucc m =>
      intro hmem
      have : ("-" ++ Nat.repr (m + 1)).data = '-' :: (Nat.repr (m + 1)).data := by
        rw [String.data_append]; rfl
      rw [show Int.repr (Int.negSucc m) = "-" ++ Nat.repr (m + 1) from rfl, this] at hmem
      rcases List.mem_cons.mp hmem with h | h
      · exact absurd h (by decide)
      · exact pct_not_mem_natRepr (m + 1) h

end ReprFacts

/-! ## Spec-side notions for the single-assignment and def-before-use claims -/

/-- A string is (shaped like) a temporary when it starts with the sigil
character the lowering uses for minted temporaries. -/
def isTemp (a : String) : Bool :=
  match a.data with
  | '%' :: _ => true
  | _ => false

theorem tmp_data (n : Nat) : (BX2.tmp n).data = '%' :: (toString n).data := by
  unfold BX2.tmp
  rw [String.data_append]
  rfl

theorem isTemp_tmp (n : Nat) : isTemp (BX2.tmp n) = true := by
  unfold isTemp
  rw [tmp_data]
  rfl

theorem isTemp_eq_false_of_pct_not_mem {a : String} (h : '%' ∉ a.data) :
    isTemp a = false := by
  unfold isTemp
  split
  · rename_i heq
    exact absurd (heq ▸ List.mem_cons_self '%' _) h
  · rfl

theorem isTemp_intToString (v : Int) : isTemp (toString v) = false :=
  isTemp_eq_false_of_pct_not_mem (ReprFacts.pct_not_mem_intToString v)

theorem tmp_inj {m n : Nat} (h : BX2.tmp m = BX2.tmp n) : m = n := by
  have hd := congrArg String.data h
  rw [tmp_data, tmp_data] at hd
  exact ReprFacts.natRepr_inj (List.cons.inj hd).2

/-- The temporaries an instruction writes.  A normal instruction writes its
`result`; a result-less `const` (the shape emitted for declarations, where
the temporary was passed positionally) carries the written temporary among
its arguments instead. -/
def writesE (i : BX2.TAC) : List String :=
  match i.result with
  | some r => [r]
  | none => if i.opcode = "const" then i.arguments.filter (fun a => isTemp a) else []

/-- All temporaries written by a list of instructions, in order. -/
def allWritesE (l : List BX2.TAC) : List String := (l.map writesE).flatten

theorem allWritesE_nil : allWritesE [] = [] := rfl

theorem allWritesE_cons (i : BX2.TAC) (l : List BX2.TAC) :
    allWritesE (i :: l) = writesE i ++ allWritesE l := rfl

theorem allWritesE_append (l1 l2 : List BX2.TAC) :
    allWritesE (l1 ++ l2) = allWritesE l1 ++ allWritesE l2 := by
  simp [allWritesE]

/-- Def-before-use, relative to a set of already-written temporaries:
every temporary argument of each instruction is already written, except that
a declaration-emitted result-less `const` may carry its own fresh temporary. -/
def dbueFrom (written : List String) : List BX2.TAC → Prop
  | [] => True
  | i :: rest =>
      (∀ a ∈ i.arguments, isTemp a = true →
        a ∈ written ∨ (i.opcode = "const" ∧ i.result = none)) ∧
      dbueFrom (written ++ writesE i) rest

def DBUE (l : List BX2.TAC) : Prop := dbueFrom [] l

/-- Weakened single assignment, relative to already-written temporaries:
an instruction either is a `copy` (emitted for an assignment, rewriting the
assigned variable) or writes only never-before-written temporaries. -/
def ocrFrom (written : List String) : List BX2.TAC → Prop
  | [] => True
  | i :: rest =>
      (i.opcode = "copy" ∨ ∀ a ∈ writesE i, a ∉ written) ∧
      ocrFrom (written ++ writesE i) rest

def OCR (l : List BX2.TAC) : Prop := ocrFrom [] l

theorem dbueFrom_append (l1 : List BX2.TAC) :
    ∀ (w : List String) (l2 : List BX2.TAC),
      dbueFrom w (l1 ++ l2) ↔ dbueFrom w l1 ∧ dbueFrom (w ++ allWritesE l1) l2 := by
  induction l1 with
  | nil => intro w l2; simp [dbueFrom, allWritesE]
  | cons i l1 ih =>
      intro w l2
      constructor
      · rintro ⟨h1, h2⟩
        have h2b := (ih (w ++ writesE i) l2).mp h2
        refine ⟨⟨h1, h2b.1⟩, ?_⟩
        rw [allWritesE_cons, ← List.append_assoc]
        exact h2b.2
      · rintro ⟨⟨h1, h2⟩, h3⟩
        rw [allWritesE_cons, ← List.append_assoc] at h3
        exact ⟨h1, (ih (w ++ writesE i) l2).mpr ⟨h2, h3⟩⟩

theorem ocrFrom_append (l1 : List BX2.TAC) :
    ∀ (w : List String) (l2 : List BX2.TAC),
      ocrFrom w (l1 ++ l2) ↔ ocrFrom w l1 ∧ ocrFrom (w ++ allWritesE l1) l2 := by
  induction l1 with
  | nil => intro w l2; simp [ocrFrom, allWritesE]
  | cons i l1 ih =>
      intro w l2
      constructor
      · rintro ⟨h1, h2⟩
        have h2b := (ih (w ++ writesE i) l2).mp h2
        refine ⟨⟨h1, h2b.1⟩, ?_⟩
        rw [allWritesE_cons, ← List.append_assoc]
        exact h2b.2
      · rintro ⟨⟨h1, h2⟩, h3⟩
        rw [allWritesE_cons, ← List.append_assoc] at h3
        exact ⟨h1, (ih (w ++ writesE i) l2).mpr ⟨h2, h3⟩⟩

/-- A temporary minted strictly below counter value `c`. -/
def TempLt (c : Nat) (t : String) : Prop := ∃ n, n < c ∧ t = BX2.tmp n

theorem TempLt.mono {c c2 : Nat} {t : String} (h : TempLt c t) (hc : c ≤ c2) :
    TempLt c2 t := by
  obtain ⟨n, hn, rfl⟩ := h
  exact ⟨n, by omega, rfl⟩

/-- The lowering invariant: all written temporaries are below the counter,
every bound variable maps to a written temporary, and the emitted prefix
satisfies def-before-use and only-copies-rewrite. -/
structure MMInv (s : BX2.MMState) : Prop where
  writes_lt : ∀ t ∈ allWritesE s.tac, TempLt s.counter t
  vars_writ : ∀ x t, s.vars.lookup x = some t → t ∈ allWritesE s.tac
  dbue : DBUE s.tac
  ocr : OCR s.tac

theorem MMInv_init : MMInv ⟨0, [], []⟩ := by
  refine ⟨?_, ?_, ?_, ?_⟩
  · intro t ht; cases ht
  · intro x t ht; cases ht
  · exact trivial
  · exact trivial

theorem MMInv_bump (s : BX2.MMState) (h : MMInv s) :
    MMInv ⟨s.counter + 1, s.tac, s.vars⟩ := by
  refine ⟨?_, h.vars_writ, h.dbue, h.ocr⟩
  intro t ht
  exact (h.writes_lt t ht).mono (Nat.le_succ s.counter)

/-- A freshly minted temporary is not among the already-written ones. -/
theorem tmp_not_written (s : BX2.MMState) (h : MMInv s) :
    BX2.tmp s.counter ∉ allWritesE s.tac := by
  intro hmem
  obtain ⟨n, hn, heq⟩ := h.writes_lt _ hmem
  have := tmp_inj heq
  omega

theorem isTemp_zero_lit : isTemp "0" = false := by decide

theorem writesE_result (op : String) (args : List String) (r : String) :
    writesE ⟨op, args, some r⟩ = [r] := rfl

theorem writesE_print (t : String) : writesE ⟨"print", [t], none⟩ = [] := by
  simp [writesE]

theorem writesE_decl_const (t : String) (ht : isTemp t = true) :
    writesE ⟨"const", ["0", t], none⟩ = [t] := by
  simp [writesE, List.filter, isTemp_zero_lit, ht]

/-- Pushing one instruction preserves the invariant, provided its temp
arguments are already written (or it is a declaration const), it is a copy
or writes only fresh temporaries, and what it writes is below the counter. -/
theorem MMInv_push (s : BX2.MMState) (i : BX2.TAC) (h : MMInv s)
    (hdb : ∀ a ∈ i.arguments, isTemp a = true →
      a ∈ allWritesE s.tac ∨ (i.opcode = "const" ∧ i.result = none))
    (hoc : i.opcode = "copy" ∨ ∀ a ∈ writesE i, a ∉ allWritesE s.tac)
    (hwl : ∀ a ∈ writesE i, TempLt s.counter a) :
    MMInv (BX2.push s i) := by
  have htac : (BX2.push s i).tac = s.tac ++ [i] := rfl
  refine ⟨?_, ?_, ?_, ?_⟩
  · intro t ht
    rw [htac, allWritesE_append, allWritesE_cons, allWritesE_nil, List.append_nil] at ht
    rcases List.mem_append.mp ht with h1 | h1
    · exact h.writes_lt t h1
    · exact hwl t h1
  · intro x t hx
    have := h.vars_writ x t hx
    rw [htac, allWritesE_append]
    exact List.mem_append_left _ this
  · show dbueFrom [] (s.tac ++ [i])
    rw [dbueFrom_append]
    refine ⟨h.dbue, ?_, trivial⟩
    intro a ha hta
    rcases hdb a ha hta with h1 | h1
    · exact Or.inl (List.mem_append_right [] h1)
    · exact Or.inr h1
  · show ocrFrom [] (s.tac ++ [i])
    rw [ocrFrom_append]
    refine ⟨h.ocr, ?_, trivial⟩
    rcases hoc with h1 | h1
    · exact Or.inl h1
    · refine Or.inr fun a ha hmem => h1 a ha ?_
      rcases List.mem_append.mp hmem with h2 | h2
      · cases h2
      · exact h2

mutual

theorem for_expression_spec (e : BX2.Expression) :
    ∀ (s s2 : BX2.MMState) (t : String), MMInv s →
      BX2.for_expression s e = some (s2, t) →
      MMInv s2 ∧ s.counter ≤ s2.counter ∧ s2.vars = s.vars ∧
        (∃ d, s2.tac = s.tac ++ d ∧
          ∀ a ∈ allWritesE d, ∃ n, s.counter ≤ n ∧ n < s2.counter ∧ a = BX2.tmp n) ∧
        t ∈ allWritesE s2.tac := by
  cases e with
  | VarExpression name =>
      intro s s2 t hinv heq
      simp only [BX2.for_expression] at heq
      cases hl : s.vars.lookup name.value with
      | none => rw [hl] at heq; cases heq
      | some t0 =>
          rw [hl] at heq
          injection heq with heq2
          obtain ⟨rfl, rfl⟩ := Prod.mk.inj heq2
          refine ⟨hinv, le_refl _, rfl, ⟨[], (List.append_nil _).symm, ?_⟩, ?_⟩
          · intro a ha; cases ha
          · exact hinv.vars_writ name.value t0 hl
  | IntExpression v =>
      intro s s2 t hinv heq
      simp only [BX2.for_expression, BX2.fresh_temporary] at heq
      injection heq with heq2
      obtain ⟨rfl, rfl⟩ := Prod.mk.inj heq2
      set c := s.counter with hc
      set i : BX2.TAC := ⟨"const", [toString v], some (BX2.tmp c)⟩ with hi
      have hwE : writesE i = [BX2.tmp c] := rfl
      refine ⟨?_, Nat.le_succ c, rfl, ⟨[i], rfl, ?_⟩, ?_⟩
      · refine MMInv_push _ i (MMInv_bump s hinv) ?_ ?_ ?_
        · intro a ha hta
          rw [hi] at ha
          rcases List.mem_singleton.mp ha with rfl
          rw [isTemp_intToString v] at hta
          cases hta
        · refine Or.inr fun a ha hmem => ?_
          rw [hwE] at ha
          rcases List.mem_singleton.mp ha with rfl
          exact tmp_not_written s hinv hmem
        · intro a ha
          rw [hwE] at ha
          rcases List.mem_singleton.mp ha with rfl
          exact ⟨c, Nat.lt_succ_self c, rfl⟩
      · intro a ha
        rw [allWritesE_cons, allWritesE_nil, List.append_nil, hwE] at ha
        rcases List.mem_singleton.mp ha with rfl
        exact ⟨c, le_refl c, Nat.lt_succ_self c, rfl⟩
      · show BX2.tmp c ∈ allWritesE (s.tac ++ [i])
        rw [allWritesE_append, allWritesE_cons, allWritesE_nil, List.append_nil, hwE]
        exact List.mem_append_right _ (List.mem_singleton.mpr rfl)
  | OpAppExpression op args =>
      intro s s2 t hinv heq
      simp only [BX2.for_expression, BX2.fresh_temporary] at heq
      cases hl : BX2.for_expression_list ⟨s.counter + 1, s.tac, s.vars⟩ args with
      | none => rw [hl] at heq; cases heq
      | some p =>
          obtain ⟨s2a, ts⟩ := p
          rw [hl] at heq
          cases hop : BX2.OPCODES.lookup op with
          | none => rw [hop] at heq; cases heq
          | some opname =>
              rw [hop] at heq
              injection heq with heq2
              obtain ⟨rfl, rfl⟩ := Prod.mk.inj heq2
              obtain ⟨hinv2, hcnt, hvars, ⟨d1, htac, hd1⟩, hts⟩ :=
                for_expression_list_spec args ⟨s.counter + 1, s.tac, s.vars⟩ s2a ts
                  (MMInv_bump s hinv) hl
              have hcnt2 : s.counter + 1 ≤ s2a.counter := hcnt
              have hd1b : ∀ a ∈ allWritesE d1,
                  ∃ n, s.counter + 1 ≤ n ∧ n < s2a.counter ∧ a = BX2.tmp n := hd1
              set c := s.counter with hc
              set i : BX2.TAC := ⟨opname, ts, some (BX2.tmp c)⟩ with hi
              have hwE : writesE i = [BX2.tmp c] := rfl
              have hfresh : BX2.tmp c ∉ allWritesE s2a.tac := by
                rw [htac, allWritesE_append]
                intro hmem
                rcases List.mem_append.mp hmem with h1 | h1
                · obtain ⟨n, hn, heqn⟩ := hinv.writes_lt _ h1
                  have := tmp_inj heqn
                  omega
                · obtain ⟨n, hn1, hn2, heqn⟩ := hd1b _ h1
                  have := tmp_inj heqn
                  omega
              refine ⟨?_, ?_, ?_, ⟨d1 ++ [i], ?_, ?_⟩, ?_⟩
              · refine MMInv_push s2a i hinv2 ?_ ?_ ?_
                · intro a ha hta
                  exact Or.inl (hts a ha)
                · refine Or.inr fun a ha hmem => ?_
                  rw [hwE] at ha
                  rcases List.mem_singleton.mp ha with rfl
                  exact hfresh hmem
                · intro a ha
                  rw [hwE] at ha
                  rcases List.mem_singleton.mp ha with rfl
                  exact ⟨c, by omega, rfl⟩
              · show c ≤ s2a.counter
                omega
              · show s2a.vars = s.vars
                rw [hvars]
              · show s2a.tac ++ [i] = s.tac ++ (d1 ++ [i])
                rw [htac, List.append_assoc]
              · show ∀ a ∈ allWritesE (d1 ++ [i]),
                  ∃ n, c ≤ n ∧ n < s2a.counter ∧ a = BX2.tmp n
                intro a ha
                rw [allWritesE_append, allWritesE_cons, allWritesE_nil,
                    List.append_nil, hwE] at ha
                rcases List.mem_append.mp ha with h1 | h1
                · obtain ⟨n, hn1, hn2, heqn⟩ := hd1b _ h1
                  exact ⟨n, by omega, hn2, heqn⟩
                · rcases List.mem_singleton.mp h1 with rfl
                  exact ⟨c, le_refl c, by omega, rfl⟩
              · show BX2.tmp c ∈ allWritesE (s2a.tac ++ [i])
                rw [allWritesE_append, allWritesE_cons, allWritesE_nil,
                    List.append_nil, hwE]
                exact List.mem_append_right _ (List.mem_singleton.mpr rfl)

theorem for_expression_list_spec (es : List BX2.Expression) :
    ∀ (s s2 : BX2.MMState) (ts : List String), MMInv s →
      BX2.for_expression_list s es = some (s2, ts) →
      MMInv s2 ∧ s.counter ≤ s2.counter ∧ s2.vars = s.vars ∧
        (∃ d, s2.tac = s.tac ++ d ∧
          ∀ a ∈ allWritesE d, ∃ n, s.counter ≤ n ∧ n < s2.counter ∧ a = BX2.tmp n) ∧
        (∀ t ∈ ts, t ∈ allWritesE s2.tac) := by
  cases es with
  | nil =>
      intro s s2 ts hinv heq
      simp only [BX2.for_expression_list] at heq
      injection heq with heq2
      obtain ⟨rfl, rfl⟩ := Prod.mk.inj heq2
      refine ⟨hinv, le_refl _, rfl, ⟨[], (List.append_nil _).symm, ?_⟩, ?_⟩
      · intro a ha; cases ha
      · intro t ht; cases ht
  | cons e rest =>
      intro s s2 ts hinv heq
      simp only [BX2.for_expression_list] at heq
      split at heq
      · cases heq
      · rename_i s1a t1 h1
        split at heq
        · cases heq
        · rename_i s2a ts1 h2
          injection heq with heq2
          obtain ⟨rfl, rfl⟩ := Prod.mk.inj heq2
          obtain ⟨hinvA, hcntA, hvarsA, ⟨d1, htacA, hd1⟩, ht1⟩ :=
            for_expression_spec e s s1a t1 hinv h1
          obtain ⟨hinvB, hcntB, hvarsB, ⟨d2, htacB, hd2⟩, hts1⟩ :=
            for_expression_list_spec rest s1a s2a ts1 hinvA h2
          refine ⟨hinvB, le_trans hcntA hcntB, by rw [hvarsB, hvarsA],
            ⟨d1 ++ d2, ?_, ?_⟩, ?_⟩
          · rw [htacB, htacA, List.append_assoc]
          · intro a ha
            rw [allWritesE_append] at ha
            rcases List.mem_append.mp ha with h3 | h3
            · obtain ⟨n, hn1, hn2, heqn⟩ := hd1 _ h3
              exact ⟨n, hn1, by omega, heqn⟩
            · obtain ⟨n, hn1, hn2, heqn⟩ := hd2 _ h3
              exact ⟨n, by omega, hn2, heqn⟩
          · intro t ht
            rcases List.mem_cons.mp ht with rfl | h3
            · rw [htacB, allWritesE_append]
              exact List.mem_append_left _ ht1
            · exact hts1 t h3

end

theorem for_statement_spec (st : BX2.Statement) (s s2 : BX2.MMState)
    (hinv : MMInv s) (heq : BX2.for_statement s st = some s2) :
    MMInv s2 := by
  cases st with
  | VarDeclStatement name ini =>
      simp only [BX2.for_statement, BX2.fresh_temporary] at heq
      injection heq with heq2
      subst heq2
      set c := s.counter with hc
      set i : BX2.TAC := ⟨"const", ["0", BX2.tmp c], none⟩ with hi
      have hwE : writesE i = [BX2.tmp c] := writesE_decl_const _ (isTemp_tmp c)
      have htac : (BX2.push ⟨c + 1, s.tac, (name.value, BX2.tmp c) :: s.vars⟩ i).tac
          = s.tac ++ [i] := rfl
      refine ⟨?_, ?_, ?_, ?_⟩
      · intro t ht
        rw [htac, allWritesE_append, allWritesE_cons, allWritesE_nil,
            List.append_nil, hwE] at ht
        rcases List.mem_append.mp ht with h1 | h1
        · exact (hinv.writes_lt t h1).mono (Nat.le_succ c)
        · rcases List.mem_singleton.mp h1 with rfl
          exact ⟨c, Nat.lt_succ_self c, rfl⟩
      · intro x t hx
        simp only [List.lookup] at hx
        rw [htac, allWritesE_append, allWritesE_cons, allWritesE_nil,
            List.append_nil, hwE]
        cases hbe : x == name.value with
        | true =>
            rw [hbe] at hx
            injection hx with hx2
            subst hx2
            exact List.mem_append_right _ (List.mem_singleton.mpr rfl)
        | false =>
            rw [hbe] at hx
            exact List.mem_append_left _ (hinv.vars_writ x t hx)
      · show dbueFrom [] (s.tac ++ [i])
        rw [dbueFrom_append]
        refine ⟨hinv.dbue, ?_, trivial⟩
        intro a ha hta
        exact Or.inr ⟨rfl, rfl⟩
      · show ocrFrom [] (s.tac ++ [i])
        rw [ocrFrom_append]
        refine ⟨hinv.ocr, ?_, trivial⟩
        refine Or.inr fun a ha hmem => ?_
        rw [hwE] at ha
        rcases List.mem_singleton.mp ha with rfl
        rcases List.mem_append.mp hmem with h1 | h1
        · cases h1
        · exact tmp_not_written s hinv h1
  | AssignStatement lhs rhs =>
      simp only [BX2.for_statement] at heq
      split at heq
      · cases heq
      · rename_i s1a t1 h1
        cases h2 : s1a.vars.lookup lhs.value with
        | none => rw [h2] at heq; cases heq
        | some d =>
            rw [h2] at heq
            injection heq with heq2
            subst heq2
            obtain ⟨hinvA, hcntA, hvarsA, hdA, ht1⟩ :=
              for_expression_spec rhs s s1a t1 hinv h1
            refine MMInv_push s1a ⟨"copy", [t1], some d⟩ hinvA ?_ ?_ ?_
            · intro a ha hta
              rcases List.mem_singleton.mp ha with rfl
              exact Or.inl ht1
            · exact Or.inl rfl
            · intro a ha
              have had : a = d := List.mem_singleton.mp ha
              subst had
              exact hinvA.writes_lt a (hinvA.vars_writ lhs.value a h2)
  | PrintStatement value =>
      simp only [BX2.for_statement] at heq
      split at heq
      · cases heq
      · rename_i s1a t1 h1
        injection heq with heq2
        subst heq2
        obtain ⟨hinvA, hcntA, hvarsA, hdA, ht1⟩ :=
          for_expression_spec value s s1a t1 hinv h1
        refine MMInv_push s1a ⟨"print", [t1], none⟩ hinvA ?_ ?_ ?_
        · intro a ha hta
          rcases List.mem_singleton.mp ha with rfl
          exact Or.inl ht1
        · refine Or.inr fun a ha hmem => ?_
          rw [writesE_print] at ha
          cases ha
        · intro a ha
          rw [writesE_print] at ha
          cases ha

theorem for_program_spec (p : BX2.Program) :
    ∀ (s s2 : BX2.MMState), MMInv s → BX2.for_program s p = some s2 → MMInv s2 := by
  induction p with
  | nil =>
      intro s s2 hinv heq
      simp only [BX2.for_program] at heq
      injection heq with heq2
      subst heq2
      exact hinv
  | cons st rest ih =>
      intro s s2 hinv heq
      simp only [BX2.for_program] at heq
      split at heq
      · cases heq
      · rename_i s1a h1
        exact ih s1a s2 (for_statement_spec st s s1a hinv h1) heq

/-- The literal single-static-assignment property the claim states: every
temporary occurring as a `result` occurs as a result exactly once. -/
def ClaimedSSA (l : List BX2.TAC) : Prop :=
  ∀ a : String, (∃ i ∈ l, i.result = some a) →
    l.countP (fun i => decide (i.result = some a)) = 1

/-- The literal def-before-use property the claim states: every temporary
among the arguments of an instruction is the `result` of an earlier one. -/
def ClaimedDBU (l : List BX2.TAC) : Prop :=
  ∀ i, (h : i < l.length) → ∀ a ∈ (l.get ⟨i, h⟩).arguments, isTemp a = true →
    ∃ j, ∃ hj : j < i, (l.get ⟨j, lt_trans hj h⟩).result = some a

/-- Claim C1, counterexample: lowering `var x; x = 1; x = 2;` produces a
sequence in which the temporary %0 of the declared variable occurs twice as
a `result` (once per `copy` from an assignment), refuting single static
assignment, and occurs as an argument of the very first instruction (the
declaration const, whose `result` is `None`), refuting def-before-use. -/
theorem c1_counterexample :
    BX2.mm [.VarDeclStatement ⟨"x"⟩ none,
            .AssignStatement ⟨"x"⟩ (.IntExpression 1),
            .AssignStatement ⟨"x"⟩ (.IntExpression 2)] =
      some [⟨"const", ["0", "%0"], none⟩,
            ⟨"const", ["1"], some "%1"⟩,
            ⟨"copy", ["%1"], some "%0"⟩,
            ⟨"const", ["2"], some "%2"⟩,
            ⟨"copy", ["%2"], some "%0"⟩] ∧
    ¬ ClaimedSSA [⟨"const", ["0", "%0"], none⟩,
            ⟨"const", ["1"], some "%1"⟩,
            ⟨"copy", ["%1"], some "%0"⟩,
            ⟨"const", ["2"], some "%2"⟩,
            ⟨"copy", ["%2"], some "%0"⟩] ∧
    ¬ ClaimedDBU [⟨"const", ["0", "%0"], none⟩,
            ⟨"const", ["1"], some "%1"⟩,
            ⟨"copy", ["%1"], some "%0"⟩,
            ⟨"const", ["2"], some "%2"⟩,
            ⟨"copy", ["%2"], some "%0"⟩] := by
  refine ⟨rfl, ?_, ?_⟩
  · intro h
    have h2 := h "%0" ⟨⟨"copy", ["%1"], some "%0"⟩, by decide, by decide⟩
    exact absurd h2 (by decide)
  · intro h
    have h2 := h 0 (by decide) "%0" (by decide) (by decide)
    obtain ⟨j, hj, _⟩ := h2
    omega

/-- Claim C1 (amended): for every Program that MM lowers successfully, the
TAC sequence satisfies def-before-use and single assignment only in the
weakened sense forced by the code: counting the declaration-emitted
result-less `const` (which carries the declared temporary as its second
argument) as the write of that temporary, every temporary argument is
written by an earlier instruction or is that very const writing it; and a
temporary once written is rewritten only by `copy` instructions emitted for
assignments. -/
theorem c1_def_before_use_single_assignment (p : BX2.Program) (l : List BX2.TAC)
    (heq : BX2.mm p = some l) : DBUE l ∧ OCR l := by
  unfold BX2.mm at heq
  cases hp : BX2.for_program ⟨0, [], []⟩ p with
  | none => rw [hp] at heq; cases heq
  | some send =>
      rw [hp] at heq
      injection heq with heq2
      subst heq2
      have := for_program_spec p ⟨0, [], []⟩ send MMInv_init hp
      exact ⟨this.dbue, this.ocr⟩

/-- Witness for C1 at a concrete program. -/
theorem c1_witness :
    DBUE [⟨"const", ["0", "%0"], none⟩, ⟨"print", ["%0"], none⟩] ∧
    OCR [⟨"const", ["0", "%0"], none⟩, ⟨"print", ["%0"], none⟩] :=
  c1_def_before_use_single_assignment
    [.VarDeclStatement ⟨"x"⟩ none, .PrintStatement (.VarExpression ⟨"x"⟩)] _ rfl

/-- Claim C2, counterexample: lowering `var x; x = 1 + 2; print x;` emits
six instructions, not the five the claim states. -/
theorem c2_counterexample :
    (BX2.mm [.VarDeclStatement ⟨"x"⟩ none,
             .AssignStatement ⟨"x"⟩ (.OpAppExpression "addition"
               [.IntExpression 1, .IntExpression 2]),
             .PrintStatement (.VarExpression ⟨"x"⟩)]).map List.length = some 6 ∧
    (6 : Nat) ≠ 5 := ⟨rfl, by decide⟩

/-- Claim C2 (amended): the program lowers to exactly six instructions:
a result-less `const 0` for the declaration carrying the variable temporary
%0 as second argument, `const 1` into %2 and `const 2` into %3, an `add`
whose result temporary %1 was minted before its operands, a `copy` into the
declaration temporary %0 (not into a fresh one), and a `print` reading %0. -/
theorem c2_lowering_sequence :
    BX2.mm [.VarDeclStatement ⟨"x"⟩ none,
            .AssignStatement ⟨"x"⟩ (.OpAppExpression "addition"
              [.IntExpression 1, .IntExpression 2]),
            .PrintStatement (.VarExpression ⟨"x"⟩)] =
      some [⟨"const", ["0", "%0"], none⟩,
            ⟨"const", ["1"], some "%2"⟩,
            ⟨"const", ["2"], some "%3"⟩,
            ⟨"add", ["%2", "%3"], some "%1"⟩,
            ⟨"copy", ["%1"], some "%0"⟩,
            ⟨"print", ["%0"], none⟩] := rfl

/-- Claim C3: processing a VarDeclStatement allocates a fresh temporary,
binds the name, never consults the initializer, and emits one `const`
instruction; but the emitted instruction has arguments `['0', temp]` and
result `None` (the temporary is passed positionally into `*arguments`
instead of as the `result` keyword), contradicting the claimed shape
`const 0 -> temp`. -/
theorem c3_vardecl_emit (s : BX2.MMState) (name : BX2.Name) (ini : Option BX2.Expression) :
    BX2.for_statement s (.VarDeclStatement name ini) =
      some ⟨s.counter + 1,
            s.tac ++ [⟨"const", ["0", BX2.tmp s.counter], none⟩],
            (name.value, BX2.tmp s.counter) :: s.vars⟩ := rfl

/-- Claim C8, counterexample: the parser attaches the operator name
logical-right-shift, but the OPCODES table instead has the transposed key
logical-shift-right, so the lookup fails and the lowering of such an
operator application crashes (modelled as `none`). -/
theorem c8_counterexample :
    "logical-right-shift" ∈ BX2.BINOP.map Prod.snd ∧
    BX2.OPCODES.lookup "logical-right-shift" = none ∧
    BX2.for_expression ⟨0, [], []⟩
      (.OpAppExpression "logical-right-shift" [.IntExpression 1, .IntExpression 2]) =
      none := ⟨by decide, rfl, rfl⟩

/-- Claim C8 (amended): every operator name in Parser.UNIOP and Parser.BINOP
except the two shift names has an OPCODES entry; the two shift names have
none (the table instead holds logical-shift-left and logical-shift-right);
and whenever the lookup succeeds, lowering an operator application emits one
instruction with the looked-up mnemonic, the lowered argument temporaries in
left-to-right order, and the fresh result temporary minted at entry. -/
theorem c8_opcode_table :
    (∀ v ∈ BX2.UNIOP.map Prod.snd ++ BX2.BINOP.map Prod.snd,
      v ≠ "logical-right-shift" → v ≠ "logical-left-shift" →
        (BX2.OPCODES.lookup v).isSome = true) ∧
    BX2.OPCODES.lookup "logical-right-shift" = none ∧
    BX2.OPCODES.lookup "logical-left-shift" = none ∧
    (∀ (s s2 : BX2.MMState) (op m : String) (args : List BX2.Expression)
        (ts : List String),
      BX2.OPCODES.lookup op = some m →
      BX2.for_expression_list ⟨s.counter + 1, s.tac, s.vars⟩ args = some (s2, ts) →
      BX2.for_expression s (.OpAppExpression op args) =
        some (BX2.push s2 ⟨m, ts, some (BX2.tmp s.counter)⟩, BX2.tmp s.counter)) := by
  refine ⟨by decide, rfl, rfl, ?_⟩
  intro s s2 op m args ts hop hlist
  simp only [BX2.for_expression, BX2.fresh_temporary]
  rw [hlist, hop]

/-- Witness for C8 at a concrete operator and expression. -/
theorem c8_witness :
    (BX2.OPCODES.lookup "addition").isSome = true ∧
    BX2.for_expression ⟨0, [], []⟩ (.OpAppExpression "addition" [.IntExpression 7]) =
      some (BX2.push ⟨2, [⟨"const", ["7"], some "%1"⟩], []⟩
              ⟨"add", ["%1"], some "%0"⟩, "%0") :=
  ⟨c8_opcode_table.1 "addition" (by decide) (by decide) (by decide),
   c8_opcode_table.2.2.2 ⟨0, [], []⟩ ⟨2, [⟨"const", ["7"], some "%1"⟩], []⟩
     "addition" "add" [.IntExpression 7] ["%1"] rfl rfl⟩

/-! ## Labs1/bxc.py: the tagged-JSON AST codec (namespace BX1) -/

namespace BX1

/-- JSON values as produced by `json.load` in bxc.py. -/
inductive PyJson where
  | null
  | bool (b : Bool)
  | num (n : Int)
  | str (s : String)
  | arr (xs : List PyJson)
  | obj (kvs : List (String × PyJson))

/-- Python exceptions arising in the decoder: the custom `InvalidBXJSon`
plus the builtin lookup and type errors that escape uncaught. -/
inductive PyErr where
  | invalidBXJSon
  | keyError
  | indexError
  | typeError
deriving DecidableEq

mutual

/-- Size measure used for termination of the recursive decoder. -/
def jsize : PyJson → Nat
  | .null => 1
  | .bool _ => 1
  | .num _ => 1
  | .str s => 1 + s.length
  | .arr xs => 1 + jsizeList xs
  | .obj kvs => 1 + jsizeObj kvs

def jsizeList : List PyJson → Nat
  | [] => 0
  | x :: xs => jsize x + jsizeList xs

def jsizeObj : List (String × PyJson) → Nat
  | [] => 0
  | (k, v) :: kvs => 1 + k.length + jsize v + jsizeObj kvs

end

/-- Python subscript `j[k]` with a string key: dict lookup (KeyError when
missing); subscripting any non-dict with a string is a TypeError. -/
def getKey (j : PyJson) (k : String) : Except PyErr PyJson :=
  match j with
  | .obj kvs =>
      match kvs.lookup k with
      | some v => .ok v
      | none => .error .keyError
  | _ => .error .typeError

/-- Python subscript `j[i]` with an integer index: list and string indexing
with negative wrap-around (IndexError out of range); an int key on a dict
is a KeyError; anything else a TypeError. -/
def getIdx (j : PyJson) (i : Int) : Except PyErr PyJson :=
  match j with
  | .arr xs =>
      let n : Int := if i < 0 then i + xs.length else i
      match n with
      | .ofNat m =>
          match xs.get? m with
          | some v => .ok v
          | none => .error .indexError
      | .negSucc _ => .error .indexError
  | .str s =>
      let cs := s.data
      let n : Int := if i < 0 then i + cs.length else i
      match n with
      | .ofNat m =>
          match cs.get? m with
          | some c => .ok (.str ⟨[c]⟩)
          | none => .error .indexError
      | .negSucc _ => .error .indexError
  | .obj _ => .error .keyError
  | _ => .error .typeError

/-- Python argument splat `f(*x)` for a two-parameter callee: a two-element
list yields its elements, a two-character string its characters, a two-key
dict its keys (Python iterates dict keys); any other value or arity is a
TypeError. -/
def splat2 : PyJson → Except PyErr (PyJson × PyJson)
  | .arr [a, b] => .ok (a, b)
  | .str s =>
      match s.data with
      | [c1, c2] => .ok (.str ⟨[c1]⟩, .str ⟨[c2]⟩)
      | _ => .error .typeError
  | .obj [(k1, _), (k2, _)] => .ok (.str k1, .str k2)
  | _ => .error .typeError

/-- Python equality of a decoded JSON value against a string literal:
true exactly for that string (no other JSON type compares equal to str). -/
def eqStr (j : PyJson) (s : String) : Bool :=
  match j with
  | .str t => t = s
  | _ => false

theorem jsize_pos (j : PyJson) : 1 ≤ jsize j := by
  cases j <;> simp [jsize]

theorem lookup_jsize {kvs : List (String × PyJson)} {k : String} {v : PyJson}
    (h : kvs.lookup k = some v) : jsize v < 1 + jsizeObj kvs := by
  induction kvs with
  | nil => cases h
  | cons kv rest ih =>
      obtain ⟨k1, v1⟩ := kv
      simp only [List.lookup] at h
      cases hbe : (k == k1) with
      | true =>
          rw [hbe] at h
          injection h with h2
          subst h2
          simp only [jsizeObj]
          omega
      | false =>
          rw [hbe] at h
          have := ih h
          simp only [jsizeObj]
          omega

theorem getKey_jsize {j : PyJson} {k : String} {v : PyJson}
    (h : getKey j k = .ok v) : jsize v < jsize j := by
  cases j with
  | obj kvs =>
      simp only [getKey] at h
      cases hl : kvs.lookup k with
      | none => rw [hl] at h; cases h
      | some w =>
          rw [hl] at h
          injection h with h2
          subst h2
          have := lookup_jsize hl
          simp only [jsize]
          omega
  | null => cases h
  | bool b => cases h
  | num n => cases h
  | str s => cases h
  | arr xs => cases h

theorem splat2_jsize {x a b : PyJson} (h : splat2 x = .ok (a, b)) :
    jsize a < jsize x ∧ jsize b < jsize x := by
  cases x with
  | null => cases h
  | bool v => cases h
  | num v => cases h
  | str s =>
      simp only [splat2] at h
      cases hd : s.data with
      | nil => rw [hd] at h; cases h
      | cons c1 tl =>
          cases tl with
          | nil => rw [hd] at h; cases h
          | cons c2 tl2 =>
              cases tl2 with
              | nil =>
                  rw [hd] at h
                  injection h with h2
                  obtain ⟨rfl, rfl⟩ := Prod.mk.inj h2
                  have hlen : s.length = 2 := by
                    show s.data.length = 2
                    rw [hd]
                    rfl
                  constructor <;> simp [jsize, hlen]
              | cons c3 tl3 => rw [hd] at h; cases h
  | arr xs =>
      match xs, h with
      | [a0, b0], h =>
          injection h with h2
          obtain ⟨rfl, rfl⟩ := Prod.mk.inj h2
          have ha := jsize_pos a0
          have hb := jsize_pos b0
          constructor <;> simp [jsize, jsizeList] <;> omega
  | obj kvs =>
      match kvs, h with
      | [(k1, v1), (k2, v2)], h =>
          injection h with h2
          obtain ⟨rfl, rfl⟩ := Prod.mk.inj h2
          have h1 := jsize_pos v1
          have h2b := jsize_pos v2
          constructor <;> simp [jsize, jsizeObj] <;> omega

/-- Word characters of the regex class `\w` (ASCII range, as used by the
ASCII tag strings of the interchange format). -/
def isWordChar (c : Char) : Bool := c.isAlphanum || c = '_'

/-- Matching of the anchored tag regex `^<(\w+)(?::(\w+))?>$` after the
leading `<`: a nonempty word, then either the closing `>`, or a colon, a
second nonempty word and the closing `>`.  Greedy `\w+` is exactly
`takeWhile` here since `\w` matches neither `:` nor `>`. -/
def parseTagAux (cs : List Char) : Option (String × Option String) :=
  let w1 := cs.takeWhile isWordChar
  let rest := cs.dropWhile isWordChar
  if w1.isEmpty then none
  else
    match rest with
    | ['>'] => some (⟨w1⟩, none)
    | ':' :: rest2 =>
        let w2 := rest2.takeWhile isWordChar
        let rest3 := rest2.dropWhile isWordChar
        if w2.isEmpty then none
        else
          match rest3 with
          | ['>'] => some (⟨w1⟩, some ⟨w2⟩)
          | _ => none
    | _ => none

/-- Python `parse_tag` (bxc.py lines 85-88): returns class and optional kind; a
bare one-part tag yields kind None.  A non-string argument makes
`re.search` raise TypeError. -/
def parse_tag (tag : PyJson) : Except PyErr (String × Option String) :=
  match tag with
  | .str s =>
      match s.data with
      | '<' :: rest =>
          match parseTagAux rest with
          | some r => .ok r
          | none => .error .invalidBXJSon
      | _ => .error .invalidBXJSon
  | _ => .error .typeError

/-- Python `parse_name` (lines 91-95): reads `name[1]['value']` inside
`try/except IndexError`; only IndexError becomes InvalidBXJSon, while a
missing `value` key escapes as an uncaught KeyError.  The raw nested value
is returned unchecked. -/
def parse_name (name : PyJson) : Except PyErr PyJson :=
  match getIdx name 1 with
  | .error .indexError => .error .invalidBXJSon
  | .error e => .error e
  | .ok payload =>
      match getKey payload "value" with
      | .error .indexError => .error .invalidBXJSon
      | .error e => .error e
      | .ok v => .ok v

/-- An expected field shape in a shallow schema (`check_shallow_schema`):
either a tagged node whose class must match, or a Python int (isinstance
accepts bool values too, since bool subclasses int). -/
inductive EType where
  | tagged (cls : String)
  | pyInt

/-- The field loop of `check_shallow_schema` (lines 56-82) over the entries
of a dict: each schema field must be present; a `tagged` expectation needs a
two-element list whose first element is a string parsing to the expected
class; `pyInt` needs an int (or bool). -/
def check_fields (kvs : List (String × PyJson)) :
    List (String × Option EType) → Except PyErr Unit
  | [] => .ok ()
  | (name, etype) :: rest =>
      match kvs.lookup name with
      | none => .error .invalidBXJSon
      | some value =>
          match etype with
          | none => check_fields kvs rest
          | some (.tagged cls) =>
              match value with
              | .arr [t, _p] =>
                  match t with
                  | .str ts =>
                      match parse_tag (.str ts) with
                      | .ok (c, _) =>
                          if c = cls then check_fields kvs rest
                          else .error .invalidBXJSon
                      | .error e => .error e
                  | _ => .error .invalidBXJSon
              | _ => .error .invalidBXJSon
          | some .pyInt =>
              match value with
              | .num _ => check_fields kvs rest
              | .bool _ => check_fields kvs rest
              | _ => .error .invalidBXJSon

/-- Python `check_shallow_schema` (lines 56-82): the data must be a dict. -/
def check_shallow_schema (data : PyJson)
    (schema : List (String × Option EType)) : Except PyErr Unit :=
  match data with
  | .obj kvs => check_fields kvs schema
  | _ => .error .invalidBXJSon

/-- The `Expression` tree of bxc.py (lines 12-29).  The dynamically typed
source stores whatever `parse_name` or the payload lookup returned, so name
and int payloads are raw JSON values. -/
inductive Expression where
  | VarExpression (name : PyJson)
  | IntExpression (value : PyJson)
  | OpAppExpression (operator : PyJson) (arguments : List Expression)

/-- The `Statement` tree of bxc.py (lines 32-49). -/
inductive Statement where
  | VarDeclStatement (name : PyJson)
  | AssignStatement (lhs : PyJson) (rhs : Expression)
  | PrintStatement (value : Expression)

def EXPRESSION_VAR_SCHEMA : List (String × Option EType) :=
  [("name", some (.tagged "name"))]

def EXPRESSION_INT_SCHEMA : List (String × Option EType) :=
  [("value", some .pyInt)]

def EXPRESSION_UNIOP_SCHEMA : List (String × Option EType) :=
  [("operator", some (.tagged "name")), ("argument", some (.tagged "expression"))]

def EXPRESSION_BINOP_SCHEMA : List (String × Option EType) :=
  [("operator", some (.tagged "name")),
   ("left", some (.tagged "expression")),
   ("right", some (.tagged "expression"))]

def STATEMENT_VARDECL_SCHEMA : List (String × Option EType) :=
  [("name", some (.tagged "name"))]

/-- The second Python binding of the variable STATEMENT_VARDECL_SCHEMA
(line 204); the vardecl entry of JSON_STATEMENTS captured the first list
before this rebinding, so both schemas stay in effect. -/
def STATEMENT_ASSIGN_SCHEMA : List (String × Option EType) :=
  [("lvalue", some (.tagged "lvalue")), ("rvalue", some (.tagged "expression"))]

def STATEMENT_EVAL_SCHEMA : List (String × Option EType) :=
  [("expression", some (.tagged "expression"))]

/-- Python `expression_of_json` (lines 101-172) with the JSON_EXPRESSIONS dispatch
table inlined: the tag class must be `expression` and the kind a key of the
table (`var`, `int`, `uniop`, `binop` — the kind None of a bare tag never
is); then the registered schema is checked and the builder runs.  Builders
evaluate in Python order: operator before arguments, left before right. -/
def expression_of_json (tag : PyJson) (data : PyJson) : Except PyErr Expression :=
  match parse_tag tag with
  | .error e => .error e
  | .ok (clazz, kind) =>
      if clazz ≠ "expression" then .error .invalidBXJSon
      else
        match kind with
        | some "var" =>
            match check_shallow_schema data EXPRESSION_VAR_SCHEMA with
            | .error e => .error e
            | .ok () =>
                match getKey data "name" with
                | .error e => .error e
                | .ok namenode =>
                    match parse_name namenode with
                    | .error e => .error e
                    | .ok nm => .ok (.VarExpression nm)
        | some "int" =>
            match check_shallow_schema data EXPRESSION_INT_SCHEMA with
            | .error e => .error e
            | .ok () =>
                match getKey data "value" with
                | .error e => .error e
                | .ok v => .ok (.IntExpression v)
        | some "uniop" =>
            match check_shallow_schema data EXPRESSION_UNIOP_SCHEMA with
            | .error e => .error e
            | .ok () =>
                match getKey data "operator" with
                | .error e => .error e
                | .ok opnode =>
                    match parse_name opnode with
                    | .error e => .error e
                    | .ok opv =>
                        match hGet : getKey data "argument" with
                        | .error e => .error e
                        | .ok argnode =>
                            match hSp : splat2 argnode with
                            | .error e => .error e
                            | .ok (t2, d2) =>
                                match expression_of_json t2 d2 with
                                | .error e => .error e
                                | .ok arg => .ok (.OpAppExpression opv [arg])
        | some "binop" =>
            match check_shallow_schema data EXPRESSION_BINOP_SCHEMA with
            | .error e => .error e
            | .ok () =>
                match getKey data "operator" with
                | .error e => .error e
                | .ok opnode =>
                    match parse_name opnode with
                    | .error e => .error e
                    | .ok opv =>
                        match hGetL : getKey data "left" with
                        | .error e => .error e
                        | .ok leftnode =>
                            match hSpL : splat2 leftnode with
                            | .error e => .error e
                            | .ok (tl2, dl2) =>
                                match expression_of_json tl2 dl2 with
                                | .error e => .error e
                                | .ok leftarg =>
                                    match hGetR : getKey data "right" with
                                    | .error e => .error e
                                    | .ok rightnode =>
                                        match hSpR : splat2 rightnode with
                                        | .error e => .error e
                                        | .ok (tr2, dr2) =>
                                            match expression_of_json tr2 dr2 with
                                            | .error e => .error e
                                            | .ok rightarg =>
                                                .ok (.OpAppExpression opv
                                                  [leftarg, rightarg])
        | _ => .error .invalidBXJSon
termination_by jsize data
decreasing_by
  · exact lt_trans (splat2_jsize hSp).2 (getKey_jsize hGet)
  · exact lt_trans (splat2_jsize hSpL).2 (getKey_jsize hGetL)
  · exact lt_trans (splat2_jsize hSpR).2 (getKey_jsize hGetR)

/-- The try block of `statement_eval_of_json` (lines 227-235): requires the
expression node to be tagged `<expression:call>` and its target to be the
name `print`; only IndexError raised inside is converted to InvalidBXJSon
(a missing `target` key escapes as a KeyError). -/
def eval_try_block (expression : PyJson) : Except PyErr Unit :=
  let body : Except PyErr Unit :=
    match getIdx expression 0 with
    | .error e => .error e
    | .ok e0 =>
        if eqStr e0 "<expression:call>" then
          match getIdx expression 1 with
          | .error e => .error e
          | .ok p1 =>
              match getKey p1 "target" with
              | .error e => .error e
              | .ok tgt =>
                  match parse_name tgt with
                  | .error e => .error e
                  | .ok nm =>
                      if eqStr nm "print" then .ok ()
                      else .error .invalidBXJSon
        else .error .invalidBXJSon
  match body with
  | .error .indexError => .error .invalidBXJSon
  | r => r

/-- Python `statement_of_json` (lines 178-243) with the JSON_STATEMENTS dispatch
table inlined (`vardecl`, `assign`, `eval`).  The eval builder runs
`eval_try_block` and then, outside the try, decodes
`expression[1]['arguments'][0]`: a missing `arguments` key or an empty
argument list raises an uncaught KeyError or IndexError, and any extra
arguments beyond the first are ignored. -/
def statement_of_json (tag : PyJson) (data : PyJson) : Except PyErr Statement :=
  match parse_tag tag with
  | .error e => .error e
  | .ok (clazz, kind) =>
      if clazz ≠ "statement" then .error .invalidBXJSon
      else
        match kind with
        | some "vardecl" =>
            match check_shallow_schema data STATEMENT_VARDECL_SCHEMA with
            | .error e => .error e
            | .ok () =>
                match getKey data "name" with
                | .error e => .error e
                | .ok namenode =>
                    match parse_name namenode with
                    | .error e => .error e
                    | .ok nm => .ok (.VarDeclStatement nm)
        | some "assign" =>
            match check_shallow_schema data STATEMENT_ASSIGN_SCHEMA with
            | .error e => .error e
            | .ok () =>
                match getKey data "lvalue" with
                | .error e => .error e
                | .ok lv =>
                    match getIdx lv 1 with
                    | .error e => .error e
                    | .ok lv1 =>
                        match getKey lv1 "name" with
                        | .error e => .error e
                        | .ok lvn =>
                            match parse_name lvn with
                            | .error e => .error e
                            | .ok lhs =>
                                match getKey data "rvalue" with
                                | .error e => .error e
                                | .ok rv =>
                                    match splat2 rv with
                                    | .error e => .error e
                                    | .ok (t2, d2) =>
                                        match expression_of_json t2 d2 with
                                        | .error e => .error e
                                        | .ok rhs => .ok (.AssignStatement lhs rhs)
        | some "eval" =>
            match check_shallow_schema data STATEMENT_EVAL_SCHEMA with
            | .error e => .error e
            | .ok () =>
                match getKey data "expression" with
                | .error e => .error e
                | .ok expression =>
                    match eval_try_block expression with
                    | .error e => .error e
                    | .ok () =>
                        match getIdx expression 1 with
                        | .error e => .error e
                        | .ok p1 =>
                            match getKey p1 "arguments" with
                            | .error e => .error e
                            | .ok argsv =>
                                match getIdx argsv 0 with
                                | .error e => .error e
                                | .ok a0 =>
                                    match splat2 a0 with
                                    | .error e => .error e
                                    | .ok (t2, d2) =>
                                        match expression_of_json t2 d2 with
                                        | .error e => .error e
                                        | .ok v => .ok (.PrintStatement v)
        | _ => .error .invalidBXJSon

/-- Python iteration `for x in body`: lists yield elements, strings their
characters, dicts their keys; other values are not iterable. -/
def pyIter (j : PyJson) : Except PyErr (List PyJson) :=
  match j with
  | .arr xs => .ok xs
  | .str s => .ok (s.data.map (fun c => .str ⟨[c]⟩))
  | .obj kvs => .ok (kvs.map (fun kv => .str kv.1))
  | _ => .error .typeError

/-- Python `bxprogram_of_json` (lines 246-252): reads the fixed nested path
`data['ast'][0][1]['body']` inside `try/except IndexError` — so a missing
`ast` (or `body`) key raises an uncaught KeyError — and then decodes each
statement node of the body in order, aborting on the first failure. -/
def bxprogram_of_json (data : PyJson) : Except PyErr (List Statement) :=
  let body : Except PyErr PyJson :=
    match getKey data "ast" with
    | .error e => .error e
    | .ok a =>
        match getIdx a 0 with
        | .error e => .error e
        | .ok a0 =>
            match getIdx a0 1 with
            | .error e => .error e
            | .ok a01 => getKey a01 "body"
  let caught : Except PyErr PyJson :=
    match body with
    | .error .indexError => .error PyErr.invalidBXJSon
    | r => r
  match caught with
  | .error e => .error e
  | .ok b =>
      match pyIter b with
      | .error e => .error e
      | .ok items =>
          items.mapM (fun x =>
            match splat2 x with
            | .error e => .error e
            | .ok (t, d) => statement_of_json t d)

/-- The decoding the eval builder applies to the first argument node of a
call: splat the node and decode it as an expression, wrapping the result in
a PrintStatement. -/
def decode_first_call_argument (a0 : PyJson) : Except PyErr Statement :=
  match splat2 a0 with
  | .error e => .error e
  | .ok (t, d) =>
      match expression_of_json t d with
      | .error e => .error e
      | .ok v => .ok (.PrintStatement v)

/-- A well-formed name node whose value is the string `print`. -/
def printTarget : PyJson := .arr [.str "<name>", .obj [("value", .str "print")]]

/-- The payload of an eval statement node wrapping a call node with the
given target and argument list. -/
def evalCallData (tgt args : PyJson) : PyJson :=
  .obj [("expression", .arr [.str "<expression:call>",
    .obj [("target", tgt), ("arguments", args)]])]

end BX1

theorem takeWhile_all_append (p : Char → Bool) (l : List Char)
    (hl : ∀ c ∈ l, p c = true) (c : Char) (hc : p c = false) (r : List Char) :
    (l ++ c :: r).takeWhile p = l ∧ (l ++ c :: r).dropWhile p = c :: r := by
  induction l with
  | nil =>
      simp [List.takeWhile, List.dropWhile, hc]
  | cons x xs ih =>
      have hx : p x = true := hl x (List.mem_cons_self x xs)
      have hxs : ∀ d ∈ xs, p d = true := fun d hd => hl d (List.mem_cons_of_mem x hd)
      obtain ⟨h1, h2⟩ := ih hxs
      constructor
      · simp only [List.cons_append, List.takeWhile, hx]
        exact congrArg (List.cons x) h1
      · simp only [List.cons_append, List.dropWhile, hx]
        exact h2

theorem string_data_tag (w : String) :
    ("<" ++ w ++ ">").data = '<' :: (w.data ++ ['>']) := by
  rw [String.data_append, String.data_append]
  rfl

theorem string_mk_data (w : String) : (⟨w.data⟩ : String) = w := by
  cases w
  rfl

theorem string_data_ne_nil {w : String} (h : w ≠ "") : w.data ≠ [] := by
  intro hd
  apply h
  cases w with
  | mk d => cases hd; rfl

/-- Claim C4: the decoder does not reduce every schema violation to
InvalidBXJSon: a top-level document without the `ast` key makes
`bxprogram_of_json` raise an uncaught KeyError (only IndexError is
converted), and a name node whose payload lacks the nested `value` field
makes `parse_name` raise an uncaught KeyError as well. -/
theorem c4_missing_key_is_keyerror :
    BX1.bxprogram_of_json (.obj []) = .error .keyError ∧
    BX1.parse_name (.arr [.str "<name>", .obj []]) = .error .keyError ∧
    BX1.PyErr.keyError ≠ BX1.PyErr.invalidBXJSon := ⟨rfl, rfl, by decide⟩

/-- Claim C5, counterexample: an eval node whose call carries two arguments
decodes successfully to a PrintStatement of the first argument, while the
claim says any call with more than one argument must fail. -/
theorem c5_counterexample :
    BX1.statement_of_json (.str "<statement:eval>")
      (BX1.evalCallData BX1.printTarget
        (.arr [.arr [.str "<expression:int>", .obj [("value", .num 1)]],
               .arr [.str "<expression:int>", .obj [("value", .num 2)]]])) =
      .ok (.PrintStatement (.IntExpression (.num 1))) := by
  have h1 : BX1.statement_of_json (.str "<statement:eval>")
      (BX1.evalCallData BX1.printTarget
        (.arr [.arr [.str "<expression:int>", .obj [("value", .num 1)]],
               .arr [.str "<expression:int>", .obj [("value", .num 2)]]])) =
      BX1.decode_first_call_argument
        (.arr [.str "<expression:int>", .obj [("value", .num 1)]]) := rfl
  have h2 : BX1.expression_of_json (.str "<expression:int>")
      (.obj [("value", .num 1)]) = .ok (.IntExpression (.num 1)) := by
    rw [BX1.expression_of_json.eq_def]
    rfl
  rw [h1]
  simp only [BX1.decode_first_call_argument, BX1.splat2]
  rw [h2]

/-- Claim C5 (amended): decoding an eval statement node whose expression is
a call tagged `<expression:call>` with a well-formed `print` target reduces
exactly to decoding the first argument node (extra arguments are ignored,
so a two-argument call can succeed); a wrong target name or a wrong tag
fails with InvalidBXJSon; but an empty argument list fails with an uncaught
IndexError and a payload missing the `arguments` or `target` key fails with
an uncaught KeyError, not with InvalidBXJSon. -/
theorem c5_eval_decode_characterization :
    (∀ (a0 : BX1.PyJson) (rest : List BX1.PyJson),
      BX1.statement_of_json (.str "<statement:eval>")
        (BX1.evalCallData BX1.printTarget (.arr (a0 :: rest))) =
      BX1.decode_first_call_argument a0) ∧
    (BX1.statement_of_json (.str "<statement:eval>")
      (BX1.evalCallData
        (.arr [.str "<name>", .obj [("value", .str "display")]]) (.arr [])) =
      .error .invalidBXJSon) ∧
    (BX1.statement_of_json (.str "<statement:eval>")
      (.obj [("expression", .arr [.str "<expression:int>",
        .obj [("value", .num 3)]])]) = .error .invalidBXJSon) ∧
    (BX1.statement_of_json (.str "<statement:eval>")
      (BX1.evalCallData BX1.printTarget (.arr [])) = .error .indexError) ∧
    (BX1.statement_of_json (.str "<statement:eval>")
      (.obj [("expression", .arr [.str "<expression:call>",
        .obj [("target", BX1.printTarget)]])]) = .error .keyError) ∧
    (BX1.statement_of_json (.str "<statement:eval>")
      (.obj [("expression", .arr [.str "<expression:call>",
        .obj [("arguments", .arr [])]])]) = .error .keyError) :=
  ⟨fun a0 rest => rfl, rfl, rfl, rfl, rfl, rfl⟩

/-- Claim C10: a bare one-part tag `<word>` is accepted by parse_tag with
kind None, yet both dispatchers reject any node carrying it with
InvalidBXJSon, because None is never a key of the dispatch tables (and a
class other than expression, resp. statement, is rejected even earlier). -/
theorem c10_bare_tag_undecodable (w : String) (hne : w ≠ "")
    (hw : ∀ c ∈ w.data, BX1.isWordChar c = true) :
    BX1.parse_tag (.str ("<" ++ w ++ ">")) = .ok (w, none) ∧
    (∀ data, BX1.expression_of_json (.str ("<" ++ w ++ ">")) data =
      .error .invalidBXJSon) ∧
    (∀ data, BX1.statement_of_json (.str ("<" ++ w ++ ">")) data =
      .error .invalidBXJSon) := by
  have hgt : BX1.isWordChar '>' = false := by decide
  obtain ⟨htake, hdrop⟩ := takeWhile_all_append BX1.isWordChar w.data hw '>' hgt []
  have hemp : ((w.data ++ ['>']).takeWhile BX1.isWordChar).isEmpty = false := by
    rw [htake]
    cases hd : w.data with
    | nil => exact absurd hd (string_data_ne_nil hne)
    | cons a l => rfl
  have haux : BX1.parseTagAux (w.data ++ ['>']) = some (w, none) := by
    unfold BX1.parseTagAux
    simp only [htake, hdrop]
    rw [if_neg (by simpa using string_data_ne_nil hne)]
  have hptag : BX1.parse_tag (.str ("<" ++ w ++ ">")) = .ok (w, none) := by
    show (match BX1.parseTagAux (w.data ++ ['>']) with
          | some r => Except.ok r
          | none => Except.error BX1.PyErr.invalidBXJSon) = Except.ok (w, none)
    rw [haux]
  refine ⟨hptag, ?_, ?_⟩
  · intro data
    rw [BX1.expression_of_json.eq_def, hptag]
    show (if w ≠ "expression" then Except.error BX1.PyErr.invalidBXJSon
          else Except.error BX1.PyErr.invalidBXJSon) = Except.error BX1.PyErr.invalidBXJSon
    exact ite_self _
  · intro data
    rw [BX1.statement_of_json.eq_def, hptag]
    show (if w ≠ "statement" then Except.error BX1.PyErr.invalidBXJSon
          else Except.error BX1.PyErr.invalidBXJSon) = Except.error BX1.PyErr.invalidBXJSon
    exact ite_self _

/-- Witness for C10 at the concrete bare tag of the expression class. -/
theorem c10_witness :
    BX1.parse_tag (.str "<expression>") = .ok ("expression", none) ∧
    BX1.expression_of_json (.str "<expression>") (.obj []) =
      .error .invalidBXJSon ∧
    BX1.statement_of_json (.str "<expression>") (.obj []) =
      .error .invalidBXJSon := by
  obtain ⟨h1, h2, h3⟩ := c10_bare_tag_undecodable "expression" (by decide) (by decide)
  exact ⟨h1, h2 (.obj []), h3 (.obj [])⟩

/-! ## Labs1/tac2arm.py: the assembly backend (namespace ARM) -/

namespace ARM

/-- A TAC instruction as read from the interchange JSON by tac2arm.py;
section 6 of the interface fixes args as strings and result as string or
null. -/
structure TacInstr where
  opcode : String
  args : List String
  result : Option String
deriving DecidableEq

/-- The mutable state of a CodeEmitter (tac2arm.py lines 10-13): the
temporary-to-slot dict `_temps`, modelled as the insertion-ordered list of
its distinct keys (each key maps to its list position, exactly the value
`setdefault(temp, len(self._temps))` stores), and the emitted lines. -/
structure CEState where
  temps : List String
  asm : List String
deriving DecidableEq

/-- Position of the first occurrence of a key, as stored in the dict. -/
def slotIdx : List String → String → Option Nat
  | [], _ => none
  | x :: xs, t => if x = t then some 0 else (slotIdx xs t).map (· + 1)

/-- The slot operand `f'[SP, #{8*index}]'` (line 26). -/
def slotRef (i : Nat) : String := "[SP, #" ++ toString (8 * i) ++ "]"

/-- Python `CodeEmitter._temp` (lines 24-26): `setdefault` returns the existing
index or binds the temporary to the next one. -/
def temp (s : CEState) (t : String) : String × CEState :=
  match slotIdx s.temps t with
  | some i => (slotRef i, s)
  | none => (slotRef s.temps.length, ⟨s.temps ++ [t], s.asm⟩)

/-- Python `CodeEmitter._get_asm` (lines 28-31). -/
def getAsm (opcode : String) (args : List String) : String :=
  match args with
  | [] => opcode
  | _ => opcode ++ "\t" ++ String.intercalate ", " args

/-- Python `CodeEmitter._emit` (lines 33-34). -/
def emit (s : CEState) (opcode : String) (args : List String) : CEState :=
  ⟨s.temps, s.asm ++ [getAsm opcode args]⟩

/-- Python `_emit_const` (lines 36-38). -/
def emit_const (s : CEState) (ctt dst : String) : CEState :=
  let s1 := emit s "mov" ["X2", "#" ++ ctt]
  let r := temp s1 dst
  emit r.2 "str" ["X2", r.1]

/-- Python `_emit_copy` (lines 40-42). -/
def emit_copy (s : CEState) (src dst : String) : CEState :=
  let r1 := temp s src
  let s1 := emit r1.2 "ldr" ["X2", r1.1]
  let r2 := temp s1 dst
  emit r2.2 "str" ["X2", r2.1]

/-- Python `_emit_alu2` (lines 44-48). -/
def emit_alu2 (s : CEState) (opcode op1 op2 dst : String) : CEState :=
  let r1 := temp s op1
  let s1 := emit r1.2 "ldr" ["X0", r1.1]
  let r2 := temp s1 op2
  let s2 := emit r2.2 "ldr" ["X1", r2.1]
  let s3 := emit s2 opcode ["X2", "X0", "X1"]
  let r3 := temp s3 dst
  emit r3.2 "str" ["X2", r3.1]

/-- Python `_emit_mod` (lines 62-68): divide, multiply back, subtract. -/
def emit_mod (s : CEState) (op1 op2 dst : String) : CEState :=
  let r1 := temp s op1
  let s1 := emit r1.2 "ldr" ["X0", r1.1]
  let r2 := temp s1 op2
  let s2 := emit r2.2 "ldr" ["X1", r2.1]
  let s3 := emit s2 "sdiv" ["X2", "X0", "X1"]
  let s4 := emit s3 "mul" ["X2", "X2", "X1"]
  let s5 := emit s4 "sub" ["X2", "X0", "X2"]
  let r3 := temp s5 dst
  emit r3.2 "str" ["X2", r3.1]

/-- Python `_emit_print` (lines 85-93). -/
def emit_print (s : CEState) (arg : String) : CEState :=
  let r1 := temp s arg
  let s1 := emit r1.2 "ldr" ["X2", r1.1]
  let s2 := emit s1 "stp" ["X29", "X30", "[SP, #-16]!"]
  let s3 := emit s2 "str" ["X2", "[SP, #-16]!"]
  let s4 := emit s3 "adrp" ["X0", "l._dformat@PAGE"]
  let s5 := emit s4 "add" ["X0", "X0", "l._dformat@PAGEOFF"]
  let s6 := emit s5 "bl" ["_printf"]
  let s7 := emit s6 "add" ["SP", "SP", "#16"]
  emit s7 "ldp" ["X29", "X30", "[SP]", "#16"]

/-- Emission failures: an opcode with no `_emit_{opcode}` handler raises
AttributeError naming the missing attribute — the UnhandledOpcodeError of
the spec, reporting the opcode — before anything is appended; a handler
called with the wrong operand count raises TypeError (arityError). -/
inductive EmiErr where
  | unhandledOpcode (opcode : String)
  | arityError
deriving DecidableEq

/-- The opcodes for which the getattr lookup finds a method named
`_emit_{opcode}`: the thirteen public handlers AND the internal helper
`_emit_alu2` itself, which the dynamic dispatch reaches just the same (an
instruction with opcode alu2 is dispatched to it, its first operand
serving as the assembly mnemonic). -/
def HANDLED : List String :=
  ["const", "copy", "alu2", "add", "sub", "mul", "div", "mod", "and", "or",
   "xor", "shl", "shr", "print"]

/-- The dispatch `getattr(self, f'_emit_{opcode}')(*args)` of
`CodeEmitter.__call__` (line 22): an opcode without a matching method raises
AttributeError before anything is emitted; a method applied to the wrong
number of operands raises TypeError; opcode alu2 resolves to the internal
helper `_emit_alu2(opcode, op1, op2, dst)`. -/
def dispatch (s : CEState) (opcode : String) (args : List String) :
    Except EmiErr CEState :=
  if opcode ∈ HANDLED then
    match opcode, args with
    | "const", [c, d] => .ok (emit_const s c d)
    | "copy", [a, d] => .ok (emit_copy s a d)
    | "alu2", [m, a, b, d] => .ok (emit_alu2 s m a b d)
    | "add", [a, b, d] => .ok (emit_alu2 s "add" a b d)
    | "sub", [a, b, d] => .ok (emit_alu2 s "sub" a b d)
    | "mul", [a, b, d] => .ok (emit_alu2 s "mul" a b d)
    | "div", [a, b, d] => .ok (emit_alu2 s "sdiv" a b d)
    | "mod", [a, b, d] => .ok (emit_mod s a b d)
    | "and", [a, b, d] => .ok (emit_alu2 s "and" a b d)
    | "or", [a, b, d] => .ok (emit_alu2 s "orr" a b d)
    | "xor", [a, b, d] => .ok (emit_alu2 s "eor" a b d)
    | "shl", [a, b, d] => .ok (emit_alu2 s "lsl" a b d)
    | "shr", [a, b, d] => .ok (emit_alu2 s "lsr" a b d)
    | "print", [a] => .ok (emit_print s a)
    | _, _ => .error .arityError
  else .error (.unhandledOpcode opcode)

/-- Python `CodeEmitter.__call__` (lines 15-22): copy the args, append the result
when present, and dispatch on the opcode. -/
def emitInstr (s : CEState) (i : TacInstr) : Except EmiErr CEState :=
  dispatch s i.opcode
    (i.args ++ (match i.result with | some r => [r] | none => []))

/-- The emission loop of `_main` (lines 124-125). -/
def emitAll (s : CEState) : List TacInstr → Except EmiErr CEState
  | [] => .ok s
  | i :: rest =>
      match emitInstr s i with
      | .error e => .error e
      | .ok s1 => emitAll s1 rest

/-- The temporaries an instruction makes the emitter reference, in the
order its handler calls `_temp`: the destination only for `const` (the
immediate is not a temporary), source then destination for `copy`, both
operands then the destination for the ALU and `mod` handlers, the single
operand for `print`; for alu2 the first operand is the assembly mnemonic
`_emit_alu2` passes straight to `_emit`, so only the remaining three
operands reach `_temp`. -/
def refsOfArgs (opcode : String) (args : List String) : List String :=
  match opcode, args with
  | "const", [_c, d] => [d]
  | "copy", [a, d] => [a, d]
  | "alu2", [_m, a, b, d] => [a, b, d]
  | "add", [a, b, d] => [a, b, d]
  | "sub", [a, b, d] => [a, b, d]
  | "mul", [a, b, d] => [a, b, d]
  | "div", [a, b, d] => [a, b, d]
  | "mod", [a, b, d] => [a, b, d]
  | "and", [a, b, d] => [a, b, d]
  | "or", [a, b, d] => [a, b, d]
  | "xor", [a, b, d] => [a, b, d]
  | "shl", [a, b, d] => [a, b, d]
  | "shr", [a, b, d] => [a, b, d]
  | "print", [a] => [a]
  | _, _ => []

def refsOf (i : TacInstr) : List String :=
  refsOfArgs i.opcode
    (i.args ++ (match i.result with | some r => [r] | none => []))

/-- All temporaries referenced by a sequence, in first-call order. -/
def refsAll (instrs : List TacInstr) : List String := (instrs.map refsOf).flatten

/-- Insertion as `setdefault` performs it: keep the list if present,
append otherwise. -/
def insertOne (ts : List String) (t : String) : List String :=
  match slotIdx ts t with
  | some _ => ts
  | none => ts ++ [t]

def insertAll (ts : List String) (rs : List String) : List String :=
  rs.foldl insertOne ts

theorem slotIdx_eq_none_iff (l : List String) (t : String) :
    slotIdx l t = none ↔ t ∉ l := by
  induction l with
  | nil => simp [slotIdx]
  | cons x xs ih =>
      by_cases hx : x = t
      · subst hx
        simp [slotIdx]
      · simp only [slotIdx, if_neg hx]
        constructor
        · intro h hmem
          rcases List.mem_cons.mp hmem with h2 | h2
          · exact hx h2.symm
          · cases hmap : slotIdx xs t with
            | none => exact (ih.mp hmap) h2
            | some v =>
                rw [hmap] at h
                exact Option.noConfusion h
        · intro h
          have h2 : t ∉ xs := fun hm => h (List.mem_cons_of_mem x hm)
          rw [ih.mpr h2]
          rfl

theorem slotIdx_get (l : List String) (t : String) (i : Nat)
    (h : slotIdx l t = some i) : l.get? i = some t := by
  induction l generalizing i with
  | nil => cases h
  | cons x xs ih =>
      by_cases hx : x = t
      · subst hx
        simp only [slotIdx, if_pos rfl] at h
        injection h with h2
        subst h2
        rfl
      · simp only [slotIdx, if_neg hx] at h
        cases hm : slotIdx xs t with
        | none => rw [hm] at h; cases h
        | some j =>
            rw [hm] at h
            injection h with h2
            subst h2
            exact ih j hm

theorem temp_snd_temps (s : CEState) (t : String) :
    ((temp s t).2).temps = insertOne s.temps t := by
  unfold temp insertOne
  cases h : slotIdx s.temps t <;> simp only [h]

theorem emit_const_temps (s : CEState) (c d : String) :
    (emit_const s c d).temps = insertOne s.temps d :=
  temp_snd_temps _ _

theorem emit_copy_temps (s : CEState) (a d : String) :
    (emit_copy s a d).temps = insertOne (insertOne s.temps a) d := by
  simp only [emit_copy, emit, temp_snd_temps]

theorem emit_alu2_temps (s : CEState) (op a b d : String) :
    (emit_alu2 s op a b d).temps =
      insertOne (insertOne (insertOne s.temps a) b) d := by
  simp only [emit_alu2, emit, temp_snd_temps]

theorem emit_mod_temps (s : CEState) (a b d : String) :
    (emit_mod s a b d).temps =
      insertOne (insertOne (insertOne s.temps a) b) d := by
  simp only [emit_mod, emit, temp_snd_temps]

theorem emit_print_temps (s : CEState) (a : String) :
    (emit_print s a).temps = insertOne s.temps a := by
  simp only [emit_print, emit, temp_snd_temps]

theorem dispatch_temps (s : CEState) (op : String) (args : List String)
    (s2 : CEState) (h : dispatch s op args = .ok s2) :
    s2.temps = insertAll s.temps (refsOfArgs op args) := by
  delta dispatch at h
  delta refsOfArgs insertAll
  by_cases h1 : op = "const"
  · subst h1
    rcases args with _ | ⟨c, _ | ⟨d, _ | ⟨e, rest⟩⟩⟩
    · exact Except.noConfusion h
    · exact Except.noConfusion h
    · injection h with h2; subst h2; exact emit_const_temps s c d
    · exact Except.noConfusion h
  by_cases h2 : op = "copy"
  · subst h2
    rcases args with _ | ⟨a, _ | ⟨d, _ | ⟨e, rest⟩⟩⟩
    · exact Except.noConfusion h
    · exact Except.noConfusion h
    · injection h with hh; subst hh; exact emit_copy_temps s a d
    · exact Except.noConfusion h
  by_cases h14 : op = "alu2"
  · subst h14
    rcases args with _ | ⟨m, _ | ⟨a, _ | ⟨b, _ | ⟨d, _ | ⟨e, rest⟩⟩⟩⟩⟩
    · exact Except.noConfusion h
    · exact Except.noConfusion h
    · exact Except.noConfusion h
    · exact Except.noConfusion h
    · injection h with hh; subst hh; exact emit_alu2_temps s m a b d
    · exact Except.noConfusion h
  by_cases h3 : op = "print"
  · subst h3
    rcases args with _ | ⟨a, _ | ⟨d, rest⟩⟩
    · exact Except.noConfusion h
    · injection h with hh; subst hh; exact emit_print_temps s a
    · exact Except.noConfusion h
  by_cases h4 : op = "mod"
  · subst h4
    rcases args with _ | ⟨a, _ | ⟨b, _ | ⟨d, _ | ⟨e, rest⟩⟩⟩⟩
    · exact Except.noConfusion h
    · exact Except.noConfusion h
    · exact Except.noConfusion h
    · injection h with hh; subst hh; exact emit_mod_temps s a b d
    · exact Except.noConfusion h
  by_cases h5 : op = "add"
  · subst h5
    rcases args with _ | ⟨a, _ | ⟨b, _ | ⟨d, _ | ⟨e, rest⟩⟩⟩⟩
    · exact Except.noConfusion h
    · exact Except.noConfusion h
    · exact Except.noConfusion h
    · injection h with hh; subst hh; exact emit_alu2_temps s "add" a b d
    · exact Except.noConfusion h
  by_cases h6 : op = "sub"
  · subst h6
    rcases args with _ | ⟨a, _ | ⟨b, _ | ⟨d, _ | ⟨e, rest⟩⟩⟩⟩
    · exact Except.noConfusion h
    · exact Except.noConfusion h
    · exact Except.noConfusion h
    · injection h with hh; subst hh; exact emit_alu2_temps s "sub" a b d
    · exact Except.noConfusion h
  by_cases h7 : op = "mul"
  · subst h7
    rcases args with _ | ⟨a, _ | ⟨b, _ | ⟨d, _ | ⟨e, rest⟩⟩⟩⟩
    · exact Except.noConfusion h
    · exact Except.noConfusion h
    · exact Except.noConfusion h
    · injection h with hh; subst hh; exact emit_alu2_temps s "mul" a b d
    · exact Except.noConfusion h
  by_cases h8 : op = "div"
  · subst h8
    rcases args with _ | ⟨a, _ | ⟨b, _ | ⟨d, _ | ⟨e, rest⟩⟩⟩⟩
    · exact Except.noConfusion h
    · exact Except.noConfusion h
    · exact Except.noConfusion h
    · injection h with hh; subst hh; exact emit_alu2_temps s "sdiv" a b d
    · exact Except.noConfusion h
  by_cases h9 : op = "and"
  · subst h9
    rcases args with _ | ⟨a, _ | ⟨b, _ | ⟨d, _ | ⟨e, rest⟩⟩⟩⟩
    · exact Except.noConfusion h
    · exact Except.noConfusion h
    · exact Except.noConfusion h
    · injection h with hh; subst hh; exact emit_alu2_temps s "and" a b d
    · exact Except.noConfusion h
  by_cases h10 : op = "or"
  · subst h10
    rcases args with _ | ⟨a, _ | ⟨b, _ | ⟨d, _ | ⟨e, rest⟩⟩⟩⟩
    · exact Except.noConfusion h
    · exact Except.noConfusion h
    · exact Except.noConfusion h
    · injection h with hh; subst hh; exact emit_alu2_temps s "orr" a b d
    · exact Except.noConfusion h
  by_cases h11 : op = "xor"
  · subst h11
    rcases args with _ | ⟨a, _ | ⟨b, _ | ⟨d, _ | ⟨e, rest⟩⟩⟩⟩
    · exact Except.noConfusion h
    · exact Except.noConfusion h
    · exact Except.noConfusion h
    · injection h with hh; subst hh; exact emit_alu2_temps s "eor" a b d
    · exact Except.noConfusion h
  by_cases h12 : op = "shl"
  · subst h12
    rcases args with _ | ⟨a, _ | ⟨b, _ | ⟨d, _ | ⟨e, rest⟩⟩⟩⟩
    · exact Except.noConfusion h
    · exact Except.noConfusion h
    · exact Except.noConfusion h
    · injection h with hh; subst hh; exact emit_alu2_temps s "lsl" a b d
    · exact Except.noConfusion h
  by_cases h13 : op = "shr"
  · subst h13
    rcases args with _ | ⟨a, _ | ⟨b, _ | ⟨d, _ | ⟨e, rest⟩⟩⟩⟩
    · exact Except.noConfusion h
    · exact Except.noConfusion h
    · exact Except.noConfusion h
    · injection h with hh; subst hh; exact emit_alu2_temps s "lsr" a b d
    · exact Except.noConfusion h
  have hop : op ∉ HANDLED := by
    simp [HANDLED, h1, h2, h3, h4, h5, h6, h7, h8, h9, h10, h11, h12, h13,
      h14]
  rw [if_neg hop] at h
  exact Except.noConfusion h

theorem emitInstr_temps (s : CEState) (i : TacInstr) (s2 : CEState)
    (h : emitInstr s i = .ok s2) :
    s2.temps = insertAll s.temps (refsOf i) := by
  delta emitInstr at h
  delta refsOf
  exact dispatch_temps _ _ _ _ h

theorem insertOne_mem (ts : List String) (t a : String) :
    a ∈ insertOne ts t ↔ a ∈ ts ∨ a = t := by
  unfold insertOne
  cases h : slotIdx ts t with
  | some i =>
      have hmem : t ∈ ts := by
        by_contra hn
        rw [(slotIdx_eq_none_iff ts t).mpr hn] at h
        cases h
      constructor
      · exact Or.inl
      · rintro (h2 | rfl)
        · exact h2
        · exact hmem
  | none => simp [List.mem_append]

theorem insertOne_nodup (ts : List String) (t : String) (h : ts.Nodup) :
    (insertOne ts t).Nodup := by
  unfold insertOne
  cases hs : slotIdx ts t with
  | some i => exact h
  | none =>
      have hn : t ∉ ts := (slotIdx_eq_none_iff ts t).mp hs
      simp [List.nodup_append, h, hn]

theorem insertAll_mem (rs : List String) :
    ∀ (ts : List String) (a : String),
      a ∈ insertAll ts rs ↔ a ∈ ts ∨ a ∈ rs := by
  induction rs with
  | nil => intro ts a; simp [insertAll]
  | cons r rest ih =>
      intro ts a
      show a ∈ insertAll (insertOne ts r) rest ↔ _
      rw [ih, insertOne_mem]
      simp only [List.mem_cons]
      tauto

theorem insertAll_nodup (rs : List String) :
    ∀ ts : List String, ts.Nodup → (insertAll ts rs).Nodup := by
  induction rs with
  | nil => intro ts h; exact h
  | cons r rest ih => intro ts h; exact ih _ (insertOne_nodup ts r h)

theorem emitAll_temps (instrs : List TacInstr) :
    ∀ s s2, emitAll s instrs = .ok s2 →
      s2.temps = insertAll s.temps (refsAll instrs) := by
  induction instrs with
  | nil =>
      intro s s2 h
      simp only [emitAll] at h
      injection h with h2
      subst h2
      rfl
  | cons i rest ih =>
      intro s s2 h
      simp only [emitAll] at h
      cases he : emitInstr s i with
      | error e => rw [he] at h; cases h
      | ok s1 =>
          rw [he] at h
          rw [ih s1 s2 h, emitInstr_temps s i s1 he]
          show insertAll (insertAll s.temps (refsOf i)) (refsAll rest) =
            insertAll s.temps (refsAll (i :: rest))
          unfold insertAll refsAll
          rw [List.map_cons, List.flatten_cons, List.foldl_append]

/-- The padded slot count of `CodeEmitter.code` (lines 99-100):
`nvars += nvars & 1`, and `n &&& 1 = n % 2`. -/
def nvarsOf (s : CEState) : Nat := s.temps.length + s.temps.length % 2

/-- Python `CodeEmitter.code` (lines 98-108) as the list of emitted lines:
prologue reserving `8 * nvars` bytes, the body, and the epilogue releasing
the same amount (the final string joins these with tab prefixes). -/
def code (s : CEState) : List String :=
  [getAsm "sub" ["SP", "SP", "#" ++ toString (8 * nvarsOf s)]] ++ s.asm ++
  [getAsm "add" ["SP", "SP", "#" ++ toString (8 * nvarsOf s)]]

end ARM

/-- Claim C6: a successful emission over a TAC sequence referencing k
distinct temporaries assigns exactly k slots: the final slot list is the
distinct referenced temporaries in first-reference order, slot indices are
one per temporary and injective, slot i is addressed at offset 8*i from SP,
and the prologue reserves 8 * (k + k % 2) bytes — a multiple of 16 — that
the epilogue releases identically. -/
theorem c6_slot_assignment (instrs : List ARM.TacInstr) (s2 : ARM.CEState)
    (h : ARM.emitAll ⟨[], []⟩ instrs = .ok s2) :
    s2.temps = ARM.insertAll [] (ARM.refsAll instrs) ∧
    s2.temps.Nodup ∧
    (∀ t, t ∈ s2.temps ↔ t ∈ ARM.refsAll instrs) ∧
    s2.temps.length = (ARM.refsAll instrs).toFinset.card ∧
    (∀ t i, ARM.slotIdx s2.temps t = some i →
      (ARM.temp s2 t).1 = "[SP, #" ++ toString (8 * i) ++ "]") ∧
    (∀ t1 t2 i, ARM.slotIdx s2.temps t1 = some i →
      ARM.slotIdx s2.temps t2 = some i → t1 = t2) ∧
    16 ∣ 8 * ARM.nvarsOf s2 ∧
    ARM.code s2 =
      ARM.getAsm "sub" ["SP", "SP", "#" ++ toString (8 * ARM.nvarsOf s2)] ::
      (s2.asm ++
        [ARM.getAsm "add" ["SP", "SP", "#" ++ toString (8 * ARM.nvarsOf s2)]]) := by
  have h1 : s2.temps = ARM.insertAll [] (ARM.refsAll instrs) :=
    ARM.emitAll_temps instrs ⟨[], []⟩ s2 h
  have hnd : s2.temps.Nodup := by
    rw [h1]
    exact ARM.insertAll_nodup _ [] List.nodup_nil
  have hmem : ∀ t, t ∈ s2.temps ↔ t ∈ ARM.refsAll instrs := by
    intro t
    rw [h1, ARM.insertAll_mem]
    simp
  refine ⟨h1, hnd, hmem, ?_, ?_, ?_, ?_, rfl⟩
  · have hcard := List.toFinset_card_of_nodup hnd
    have hset : s2.temps.toFinset = (ARM.refsAll instrs).toFinset := by
      apply Finset.ext
      intro a
      rw [List.mem_toFinset, List.mem_toFinset]
      exact hmem a
    rw [← hcard, hset]
  · intro t i hsi
    unfold ARM.temp
    rw [hsi]
    rfl
  · intro t1 t2 i hs1 hs2
    have g1 := ARM.slotIdx_get s2.temps t1 i hs1
    have g2 := ARM.slotIdx_get s2.temps t2 i hs2
    have g3 : some t1 = some t2 := g1.symm.trans g2
    exact Option.some.inj g3
  · have hnv : ARM.nvarsOf s2 = s2.temps.length + s2.temps.length % 2 := rfl
    omega

/-- Witness for C6 at a concrete two-instruction sequence whose second
instruction carries the getattr-reachable opcode alu2, so its three
temporary operands (not its mnemonic operand) are counted. -/
theorem c6_witness :
    (⟨["%0", "%1"],
      ["mov\tX2, #7", "str\tX2, [SP, #0]", "ldr\tX0, [SP, #0]",
       "ldr\tX1, [SP, #0]", "add\tX2, X0, X1", "str\tX2, [SP, #8]"]⟩ :
      ARM.CEState).temps.Nodup ∧
    16 ∣ 8 * ARM.nvarsOf
      ⟨["%0", "%1"],
       ["mov\tX2, #7", "str\tX2, [SP, #0]", "ldr\tX0, [SP, #0]",
        "ldr\tX1, [SP, #0]", "add\tX2, X0, X1", "str\tX2, [SP, #8]"]⟩ := by
  have hc := c6_slot_assignment
    [⟨"const", ["7"], some "%0"⟩, ⟨"alu2", ["add", "%0", "%0"], some "%1"⟩]
    ⟨["%0", "%1"],
     ["mov\tX2, #7", "str\tX2, [SP, #0]", "ldr\tX0, [SP, #0]",
      "ldr\tX1, [SP, #0]", "add\tX2, X0, X1", "str\tX2, [SP, #8]"]⟩ rfl
  exact ⟨hc.2.1, hc.2.2.2.2.2.2.1⟩

/-- Modelled from the spec: the opcodes for which section 4.4 gives a
per-opcode lowering rule (const, copy, the binary ALU and shift group, mod,
the unary group, print). The internal helper name alu2 is not among them. -/
def SPEC_LOWERING_TABLE : List String :=
  ["const", "copy", "add", "sub", "mul", "div", "and", "or", "xor", "shl",
   "shr", "mod", "neg", "not", "print"]

/-- Claim C7 counterexample: the opcode alu2 has no rule in the specified
per-opcode lowering table, yet the getattr dispatch resolves it to the
internal helper `_emit_alu2`, which treats the first operand as an assembly
mnemonic and successfully emits a four-line load/op/store sequence — so an
opcode absent from the table IS dispatched to another emission routine and
assembly IS produced, refuting the claim. -/
theorem c7_counterexample :
    "alu2" ∉ SPEC_LOWERING_TABLE ∧
    ARM.emitInstr ⟨[], []⟩ ⟨"alu2", ["add", "%0", "%1"], some "%2"⟩ =
      .ok ⟨["%0", "%1", "%2"],
           ["ldr\tX0, [SP, #0]", "ldr\tX1, [SP, #8]", "add\tX2, X0, X1",
            "str\tX2, [SP, #16]"]⟩ :=
  ⟨by decide, rfl⟩

/-- Claim C7, amended: an opcode outside the full set of getattr-reachable
handlers — the thirteen public handlers plus the internal helper alu2 —
fails with the fatal error carrying the offending opcode (Python raises
AttributeError naming the missing `_emit_` attribute); no assembly is
produced and no handler runs (the result is exactly the error, not a new
emitter state). The opcode alu2 itself, however, is dispatched to the
`_emit_alu2` helper, as the counterexample shows. -/
theorem c7_unhandled_opcode (s : ARM.CEState) (i : ARM.TacInstr)
    (h : i.opcode ∉ ARM.HANDLED) :
    ARM.emitInstr s i = .error (.unhandledOpcode i.opcode) := by
  delta ARM.emitInstr ARM.dispatch
  rw [if_neg h]

/-- Witness for C7 at the opcode frobnicate. -/
theorem c7_witness :
    ARM.emitInstr ⟨[], []⟩ ⟨"frobnicate", [], none⟩ =
      .error (.unhandledOpcode "frobnicate") :=
  c7_unhandled_opcode ⟨[], []⟩ ⟨"frobnicate", [], none⟩ (by decide)

/-! ## The TAC interchange codec (TacCodec) -/

/-- Python `TAC.tojson` (bxc-skeleton.py lines 282-287): the interchange object
with `opcode`, `args` and `result` fields, result being null when absent. -/
def BX2.TAC.tojson (i : BX2.TAC) : BX1.PyJson :=
  .obj [("opcode", .str i.opcode),
        ("args", .arr (i.arguments.map .str)),
        ("result", match i.result with | some r => .str r | none => .null)]

/-- Reading back a list of JSON strings. -/
def strListOfJson : List BX1.PyJson → Option (List String)
  | [] => some []
  | .str s :: rest => (strListOfJson rest).map (s :: ·)
  | _ => none

/-- Modelled from the spec: the repository has no TAC interchange decoder
under src (tac2arm.py consumes the parsed JSON dicts directly), while
section 4.3 describes TacCodec as a bidirectional mapping whose decode
direction reads an object with `opcode`, `args` and `result` back into the
internal instruction representation.  A well-formed document has a string
opcode, an array of string args, and a string-or-null result. -/
def tacOfJson : BX1.PyJson → Option BX2.TAC
  | .obj [("opcode", .str o), ("args", .arr xs), ("result", .null)] =>
      (strListOfJson xs).map (fun args => ⟨o, args, none⟩)
  | .obj [("opcode", .str o), ("args", .arr xs), ("result", .str s)] =>
      (strListOfJson xs).map (fun args => ⟨o, args, some s⟩)
  | _ => none

/-- A well-formed TAC interchange object in the sense of section 6. -/
def WellFormedTacJson (d : BX1.PyJson) : Prop :=
  ∃ (o : String) (args : List String) (r : BX1.PyJson),
    d = .obj [("opcode", .str o), ("args", .arr (args.map .str)),
              ("result", r)] ∧
    (r = .null ∨ ∃ s, r = .str s)

theorem strListOfJson_map (l : List String) :
    strListOfJson (l.map .str) = some l := by
  induction l with
  | nil => rfl
  | cons x xs ih =>
      show (strListOfJson (xs.map .str)).map (x :: ·) = some (x :: xs)
      rw [ih]
      rfl

/-- Claim C9: the TAC interchange codec round-trips in both directions:
decoding the encoding of any internally constructed instruction gives the
instruction back, and encoding the decoding of any well-formed interchange
object gives the object back. -/
theorem c9_tac_codec_roundtrip :
    (∀ x : BX2.TAC, tacOfJson x.tojson = some x) ∧
    (∀ d : BX1.PyJson, WellFormedTacJson d →
      ∃ x, tacOfJson d = some x ∧ x.tojson = d) := by
  constructor
  · intro x
    obtain ⟨o, args, r⟩ := x
    cases r with
    | none =>
        show (strListOfJson (args.map .str)).map
          (fun args2 => (⟨o, args2, none⟩ : BX2.TAC)) = some ⟨o, args, none⟩
        rw [strListOfJson_map]
        rfl
    | some s =>
        show (strListOfJson (args.map .str)).map
          (fun args2 => (⟨o, args2, some s⟩ : BX2.TAC)) = some ⟨o, args, some s⟩
        rw [strListOfJson_map]
        rfl
  · rintro d ⟨o, args, r, rfl, hr⟩
    rcases hr with rfl | ⟨s, rfl⟩
    · refine ⟨⟨o, args, none⟩, ?_, rfl⟩
      show (strListOfJson (args.map .str)).map
        (fun args2 => (⟨o, args2, none⟩ : BX2.TAC)) = some ⟨o, args, none⟩
      rw [strListOfJson_map]
      rfl
    · refine ⟨⟨o, args, some s⟩, ?_, rfl⟩
      show (strListOfJson (args.map .str)).map
        (fun args2 => (⟨o, args2, some s⟩ : BX2.TAC)) = some ⟨o, args, some s⟩
      rw [strListOfJson_map]
      rfl

/-- Witness for C9 at a concrete instruction and document. -/
theorem c9_witness :
    tacOfJson (BX2.TAC.tojson ⟨"add", ["%0", "%1"], some "%2"⟩) =
      some ⟨"add", ["%0", "%1"], some "%2"⟩ ∧
    ∃ x, tacOfJson (.obj [("opcode", .str "print"), ("args", .arr [.str "%0"]),
      ("result", .null)]) = some x ∧
      BX2.TAC.tojson x = .obj [("opcode", .str "print"),
        ("args", .arr [.str "%0"]), ("result", .null)] :=
  ⟨c9_tac_codec_roundtrip.1 ⟨"add", ["%0", "%1"], some "%2"⟩,
   c9_tac_codec_roundtrip.2 _ ⟨"print", ["%0"], .null, rfl, Or.inl rfl⟩⟩

